import Mathlib

/-!
# Borsh deserialization (oasislabs/borsh) — shallow embedding

A shallow embedding of the binary codec of the `oasis-borsh` crate,
covering `borsh/src/de/mod.rs` (the `BorshDeserialize` impls) and the
code generators of `borsh-derive-internal` (`struct_ser.rs`,
`struct_de.rs`, `enum_ser.rs`, rendered denotationally), together with
theorems checking the natural-language specification against it.

Modeling choices:
* Bytes are `Nat`s (meaningful values are `< 256`); a byte stream is a
  `List Nat` consumed from the front.
* The generic `R: Read` reader of Rust is a state type `ρ` together with a
  `read_exact` operation (`Rd ρ`); the plain in-memory reader
  (`Cursor<&[u8]>`) is the instance on `List Nat`.
* `std::io::Error` is a kind (`UnexpectedEof` / `InvalidData` /
  `InvalidInput`) plus a message string, as constructed by the source.
* Machine integers are `Nat`s below `2 ^ width`; floats are represented
  by their IEEE-754 bit pattern (a `Nat`), since the source only ever
  moves bit patterns (`from_bits` / `to_bits`) and tests `is_nan`.
* Fallible operations return `Except IoErr`.
-/

namespace Borsh

/-- A byte stream: bytes in stream order, head is the next byte. -/
abbrev Bytes := List Nat

/-- The `std::io::ErrorKind` values the source constructs. -/
inductive ErrKind where
  | unexpectedEof
  | invalidData
  | invalidInput
  deriving DecidableEq, Repr

/-- `std::io::Error`: a kind plus a message, as built by `Error::new`. -/
structure IoErr where
  kind : ErrKind
  msg : String
  deriving DecidableEq, Repr

/-- The error `Cursor::read_exact` produces on a short stream. -/
def eofErr : IoErr := ⟨.unexpectedEof, "failed to fill whole buffer"⟩

/-- A reader state (the Rust `R: Read`): `read_exact s n` yields `n` bytes
and the advanced state, or an error. -/
structure Rd (ρ : Type) where
  read_exact : ρ → Nat → Except IoErr (Bytes × ρ)

/-- The in-memory reader over a byte list (`Cursor<&[u8]>`): take `n`
bytes off the front, failing with `UnexpectedEof` when fewer remain. -/
def listRd : Rd Bytes :=
  ⟨fun s n => if n ≤ s.length then .ok (s.take n, s.drop n) else .error eofErr⟩

/-- Little-endian bytes of `n`, `w` bytes wide (Rust `to_le_bytes`). -/
def leBytes : Nat → Nat → Bytes
  | 0, _ => []
  | w + 1, n => n % 256 :: leBytes w (n / 256)

/-- Read a little-endian byte list back into a `Nat`
(Rust `from_le_bytes`). -/
def fromLe : Bytes → Nat
  | [] => 0
  | b :: rest => b + 256 * fromLe rest

/-- `impl BorshDeserialize for uN/iN` (`impl_for_integer!` and the `u8`
impl): read exactly `w` bytes and assemble them little-endian. Signed
integers are represented by their twos-complement bit pattern. -/
def deserializeInt {ρ : Type} (rd : Rd ρ) (w : Nat) (s : ρ) :
    Except IoErr (Nat × ρ) :=
  (rd.read_exact s w).map fun (bs, s') => (fromLe bs, s')

/-- `u8::deserialize`: one byte. -/
def deserializeU8 {ρ : Type} (rd : Rd ρ) (s : ρ) : Except IoErr (Nat × ρ) :=
  deserializeInt rd 1 s

/-- `u32::deserialize`: four little-endian bytes. -/
def deserializeU32 {ρ : Type} (rd : Rd ρ) (s : ρ) : Except IoErr (Nat × ρ) :=
  deserializeInt rd 4 s

/-- `u64::deserialize`: eight little-endian bytes. -/
def deserializeU64 {ρ : Type} (rd : Rd ρ) (s : ρ) : Except IoErr (Nat × ρ) :=
  deserializeInt rd 8 s

/-- `()::deserialize`: reads nothing, always succeeds. -/
def deserializeUnit {ρ : Type} (_rd : Rd ρ) (s : ρ) : Except IoErr (Unit × ρ) :=
  .ok ((), s)

/-- `bool::deserialize`: read one byte `b`, return `b == 1`. -/
def deserializeBool {ρ : Type} (rd : Rd ρ) (s : ρ) : Except IoErr (Bool × ρ) :=
  (rd.read_exact s 1).map fun (bs, s') => (bs.headD 0 == 1, s')

/-- Is the 32-bit pattern a NaN (exponent all ones, mantissa nonzero)? -/
def isNan32 (bits : Nat) : Bool :=
  decide (bits / 2 ^ 23 % 2 ^ 8 = 255 ∧ bits % 2 ^ 23 ≠ 0)

/-- Is the 64-bit pattern a NaN (exponent all ones, mantissa nonzero)? -/
def isNan64 (bits : Nat) : Bool :=
  decide (bits / 2 ^ 52 % 2 ^ 11 = 2047 ∧ bits % 2 ^ 52 ≠ 0)

/-- The error `impl_for_float!` raises on a NaN bit pattern. -/
def nanErr : IoErr :=
  ⟨.invalidInput, "For portability reasons we do not allow to deserialize NaNs."⟩

/-- `f32::deserialize` (`impl_for_float!`): read 4 bytes, assemble the
little-endian bit pattern (`from_bits` keeps the bits), error on NaN.
The float is represented by its bit pattern. -/
def deserializeF32 {ρ : Type} (rd : Rd ρ) (s : ρ) : Except IoErr (Nat × ρ) := do
  let (bs, s') ← rd.read_exact s 4
  let res := fromLe bs
  if isNan32 res then .error nanErr else .ok (res, s')

/-- `f64::deserialize` (`impl_for_float!`): as `f32` with 8 bytes. -/
def deserializeF64 {ρ : Type} (rd : Rd ρ) (s : ρ) : Except IoErr (Nat × ρ) := do
  let (bs, s') ← rd.read_exact s 8
  let res := fromLe bs
  if isNan64 res then .error nanErr else .ok (res, s')

/-- Decode `n` consecutive elements with `d`, in stream order (the
`for _ in 0..len { result.push(T::deserialize(reader)?) }` loops of the
`String`, `Vec<T>` and `Box<[u8]>` impls). -/
def deserializeElems {ρ α : Type} (d : ρ → Except IoErr (α × ρ)) :
    Nat → ρ → Except IoErr (List α × ρ)
  | 0, s => .ok ([], s)
  | n + 1, s => do
    let (x, s') ← d s
    let (xs, s'') ← deserializeElems d n s'
    .ok (x :: xs, s'')

/-- `Option<T>::deserialize`: one flag byte; `0` is `None`, anything
else decodes a payload for `Some`. -/
def deserializeOption {ρ α : Type} (rd : Rd ρ) (d : ρ → Except IoErr (α × ρ))
    (s : ρ) : Except IoErr (Option α × ρ) := do
  let (flag, s') ← rd.read_exact s 1
  if flag.headD 0 = 0 then .ok (none, s')
  else (d s').map fun (x, s'') => (some x, s'')

/-- `Result<T, E>::deserialize`: one flag byte; `0` decodes the `Ok`
payload, anything else the `Err` payload. -/
def deserializeResult {ρ α β : Type} (rd : Rd ρ)
    (dOk : ρ → Except IoErr (α × ρ)) (dErr : ρ → Except IoErr (β × ρ))
    (s : ρ) : Except IoErr ((α ⊕ β) × ρ) := do
  let (flag, s') ← rd.read_exact s 1
  if flag.headD 0 = 0 then (dOk s').map fun (x, s'') => (.inl x, s'')
  else (dErr s').map fun (x, s'') => (.inr x, s'')

/-- UTF-8 validity of a byte list, as `String::from_utf8` checks it
(rejecting overlong forms, surrogates and code points above U+10FFFF). -/
def isValidUtf8 : Bytes → Bool
  | [] => true
  | b :: rest =>
    if b < 0x80 then isValidUtf8 rest
    else if b < 0xC2 then false
    else if b < 0xE0 then
      match rest with
      | c :: r => decide (0x80 ≤ c ∧ c < 0xC0) && isValidUtf8 r
      | [] => false
    else if b < 0xF0 then
      match rest with
      | c1 :: c2 :: r =>
        decide ((if b = 0xE0 then 0xA0 else 0x80) ≤ c1 ∧
            c1 < (if b = 0xED then 0xA0 else 0xC0)) &&
          decide (0x80 ≤ c2 ∧ c2 < 0xC0) && isValidUtf8 r
      | _ => false
    else if b < 0xF5 then
      match rest with
      | c1 :: c2 :: c3 :: r =>
        decide ((if b = 0xF0 then 0x90 else 0x80) ≤ c1 ∧
            c1 < (if b = 0xF4 then 0x90 else 0xC0)) &&
          decide (0x80 ≤ c2 ∧ c2 < 0xC0) &&
          decide (0x80 ≤ c3 ∧ c3 < 0xC0) && isValidUtf8 r
      | _ => false
    else false

/-- The error `String::deserialize` maps a `FromUtf8Error` to (the
source interpolates the library error's own message; the text is
abbreviated here, the kind is `InvalidData` as in the source). -/
def utf8Err : IoErr := ⟨.invalidData, "invalid utf-8 sequence"⟩

/-- `String::deserialize`: a `u32` length, that many bytes (read one
`u8` at a time), then UTF-8 validation. A Rust `String` value is
represented by its byte list (always valid UTF-8). -/
def deserializeString {ρ : Type} (rd : Rd ρ) (s : ρ) :
    Except IoErr (Bytes × ρ) := do
  let (len, s₁) ← deserializeU32 rd s
  let (bytes, s₂) ← deserializeElems (deserializeU8 rd) len s₁
  if isValidUtf8 bytes then .ok (bytes, s₂) else .error utf8Err

/-- `Vec<T>::deserialize`: a `u32` length `len`, then — when
`size_of::<T>() == 0` (the flag `tZeroSized`) — a single element decode
whose result is replicated to length `len` (the source materializes the
`len`-element vector from the one decoded instance via
`Vec::from_raw_parts`), otherwise `len` sequential element decodes. -/
def deserializeVec {ρ α : Type} (rd : Rd ρ) (d : ρ → Except IoErr (α × ρ))
    (tZeroSized : Bool) (s : ρ) : Except IoErr (List α × ρ) := do
  let (len, s₁) ← deserializeU32 rd s
  if tZeroSized then do
    let (x, s₂) ← d s₁
    .ok (List.replicate len x, s₂)
  else
    deserializeElems d len s₁

/-- `Box<[u8]>::deserialize`: a `u32` length then that many raw bytes
(no validation). -/
def deserializeBoxBytes {ρ : Type} (rd : Rd ρ) (s : ρ) :
    Except IoErr (Bytes × ρ) := do
  let (len, s₁) ← deserializeU32 rd s
  deserializeElems (deserializeU8 rd) len s₁

/-- The wrapping `impl_arrays` applies to the error of the element at
index `i`: kind `InvalidData`, message naming the failing index and
carrying the sub-error's message. -/
def annotateAt (i : Nat) (e : IoErr) : IoErr :=
  ⟨.invalidData,
    "error deserializing element at index " ++ toString i ++ ": " ++ e.msg⟩

/-- The element loop of `impl_arrays`, carrying the index of the next
element: the own failure of each element is wrapped with `annotateAt` at its
index; failures bubbling up from later elements pass through already
wrapped. -/
def deserializeArrayAux {ρ α : Type} (d : ρ → Except IoErr (α × ρ)) :
    Nat → Nat → ρ → Except IoErr (List α × ρ)
  | _, 0, s => .ok ([], s)
  | i, n + 1, s =>
    match d s with
    | .error e => .error (annotateAt i e)
    | .ok (x, s') =>
      (deserializeArrayAux d (i + 1) n s').map fun (xs, s'') => (x :: xs, s'')

/-- `[T; N]::deserialize` (`impl_arrays`, and the separate `[T; 0]`
impl which reads nothing): `n` sequential element decodes, each error
annotated with its index. -/
def deserializeArray {ρ α : Type} (d : ρ → Except IoErr (α × ρ)) (n : Nat)
    (s : ρ) : Except IoErr (List α × ρ) :=
  deserializeArrayAux d 0 n s

/-- `HashMap::insert` on the association-list rendering of a hash map:
an existing key keeps its place and gets the new value; a new key is
appended. -/
def hashMapInsert {κ ν : Type} [DecidableEq κ] (k : κ) (v : ν) :
    List (κ × ν) → List (κ × ν)
  | [] => [(k, v)]
  | (k', v') :: rest =>
    if k = k' then (k, v) :: rest else (k', v') :: hashMapInsert k v rest

/-- `BTreeMap::insert` on the sorted association-list rendering of an
ordered map: insert before the first larger key, replacing an equal
key's value. -/
def btreeInsert {ν : Type} (k : Nat) (v : ν) :
    List (Nat × ν) → List (Nat × ν)
  | [] => [(k, v)]
  | (k', v') :: rest =>
    if k < k' then (k, v) :: (k', v') :: rest
    else if k = k' then (k, v) :: rest
    else (k', v') :: btreeInsert k v rest

/-- The key/value pair loop shared by the two map impls: decode `n`
pairs, inserting each into the accumulated map with `ins`. -/
def deserializePairs {ρ κ ν μ : Type} (dK : ρ → Except IoErr (κ × ρ))
    (dV : ρ → Except IoErr (ν × ρ)) (ins : κ → ν → μ → μ) :
    Nat → μ → ρ → Except IoErr (μ × ρ)
  | 0, m, s => .ok (m, s)
  | n + 1, m, s => do
    let (k, s₁) ← dK s
    let (v, s₂) ← dV s₁
    deserializePairs dK dV ins n (ins k v m) s₂

/-- `HashMap<K, V, S>::deserialize`: a `u32` length, then that many
key/value pairs inserted into an initially empty map. -/
def deserializeHashMap {ρ κ ν : Type} [DecidableEq κ] (rd : Rd ρ)
    (dK : ρ → Except IoErr (κ × ρ)) (dV : ρ → Except IoErr (ν × ρ))
    (s : ρ) : Except IoErr (List (κ × ν) × ρ) := do
  let (len, s₁) ← deserializeU32 rd s
  deserializePairs dK dV hashMapInsert len [] s₁

/-- `BTreeMap<K, V>::deserialize`: a `u32` length, then that many
key/value pairs inserted into an initially empty ordered map. -/
def deserializeBTreeMap {ρ ν : Type} (rd : Rd ρ)
    (dK : ρ → Except IoErr (Nat × ρ)) (dV : ρ → Except IoErr (ν × ρ))
    (s : ρ) : Except IoErr (List (Nat × ν) × ρ) := do
  let (len, s₁) ← deserializeU32 rd s
  deserializePairs dK dV btreeInsert len [] s₁

/-- The `InvalidData` error `try_from_slice` raises when the cursor is
not at the end of the buffer after decoding
(`ERROR_NOT_ALL_BYTES_READ`). -/
def notAllBytesReadErr : IoErr := ⟨.invalidData, "Not all bytes read"⟩

/-- `BorshDeserialize::try_from_slice`: run the stream decoder over a
cursor on the buffer and require that every byte was consumed. -/
def try_from_slice {α : Type} (d : Bytes → Except IoErr (α × Bytes))
    (v : Bytes) : Except IoErr α := do
  let (x, rest) ← d v
  if rest = [] then .ok x else .error notAllBytesReadErr

/-! ## Encoders

The `BorshSerialize` impls for primitives and containers live in the
crate's `ser` module, whose file is not part of this source set; the
encoders below are therefore modelled from the wire format of the
specification (fixed-width little-endian integers, 4-byte little-endian length
prefixes counting elements, single-byte flags and discriminants). They
are pure byte producers: the only serialization failures in the crate
come from the underlying writer, and the in-memory writer used by
`try_to_vec` never fails. -/

/-- Modelled from the spec: missing `BorshSerialize` impl for `u32`
(fixed-width little-endian). -/
def encodeU32 (n : Nat) : Bytes := leBytes 4 n

/-- Modelled from the spec: missing `BorshSerialize` impl for `u64`
(fixed-width little-endian). -/
def encodeU64 (n : Nat) : Bytes := leBytes 8 n

/-- Modelled from the spec: missing `BorshSerialize` impl for `bool`
(one byte, `1` for true, `0` for false). -/
def encodeBool (b : Bool) : Bytes := [if b then 1 else 0]

/-- Modelled from the spec: missing `BorshSerialize` impl for `String`
(4-byte little-endian byte length, then the raw bytes). -/
def encodeString (s : Bytes) : Bytes := encodeU32 s.length ++ s

/-- Modelled from the spec: missing `BorshSerialize` impl for `Vec<T>`
(4-byte little-endian element count, then the element encodings in
order). -/
def encodeVec {α : Type} (encT : α → Bytes) (xs : List α) : Bytes :=
  encodeU32 xs.length ++ (xs.map encT).flatten

/-- Modelled from the spec: missing `BorshSerialize` impl for
`Option<T>` (flag byte `0` for `None`, `1` then the payload for
`Some`). -/
def encodeOption {α : Type} (encT : α → Bytes) : Option α → Bytes
  | none => [0]
  | some x => 1 :: encT x

/-- Modelled from the spec: missing `BorshSerialize` impl for
`Result<T, E>` (flag byte `0` then the `Ok` payload, `1` then the `Err`
payload). -/
def encodeResult {α β : Type} (encOk : α → Bytes) (encErr : β → Bytes) :
    α ⊕ β → Bytes
  | .inl x => 0 :: encOk x
  | .inr x => 1 :: encErr x

/-- Modelled from the spec: missing `BorshSerialize` impl for `f32`
(the little-endian bytes of the IEEE-754 bit pattern). -/
def encodeF32 (bits : Nat) : Bytes := leBytes 4 bits

/-- Modelled from the spec: missing `BorshSerialize` impl for `f64`
(the little-endian bytes of the IEEE-754 bit pattern). -/
def encodeF64 (bits : Nat) : Bytes := leBytes 8 bits

/-- Modelled from the spec: missing `BorshSerialize` impl for `[T; N]`
(the element encodings in order, no length). -/
def encodeArray {α : Type} (encT : α → Bytes) (xs : List α) : Bytes :=
  (xs.map encT).flatten

/-! ## The derivation generator, denotationally

`struct_ser.rs`, `struct_de.rs` and `enum_ser.rs` generate Rust code
from a type's shape. They are rendered here by their denotation: a
field is its resolved attribute data (the skip flag) together with the
codec the generated code calls on it (`BorshSerialize::serialize`,
`BorshDeserialize::deserialize`, `Default::default`); the generator
semantics folds those per-field actions in declaration order exactly as
the emitted code sequences them. A struct value is the list of its
field values over a common value type `V`. -/

/-- A field of a product (or of an enum variant payload): its resolved
skip attribute and the codec operations generated code invokes on it. -/
structure FieldS (V : Type) (ρ : Type) where
  skip : Bool
  ser : V → Bytes
  de : ρ → Except IoErr (V × ρ)
  dflt : V

/-- The `Fields::Named` branch of `struct_ser`: serialize the named
fields in declaration order, skipping fields whose attributes contain
`skip` (`continue` in the generator loop); each serialized field
appends its bytes to the writer. The `Fields::Unnamed` branch never
consults `contains_skip` and is rendered separately as
`structSerUnnamed`. -/
def structSer {V ρ : Type} : List (FieldS V ρ × V) → Bytes
  | [] => []
  | (f, v) :: ps => if f.skip then structSer ps else f.ser v ++ structSer ps

/-- The field-construction part of the `Fields::Named` branch of
`struct_de`: in declaration order, a skipped field is filled with
`Default::default()` and consumes nothing; any other field is decoded
from the reader. The `Fields::Unnamed` branch has no skip check and is
rendered separately as `structDeFieldsUnnamed`. -/
def structDeFields {V ρ : Type} : List (FieldS V ρ) → ρ →
    Except IoErr (List V × ρ)
  | [], s => .ok ([], s)
  | f :: fs, s =>
    if f.skip then
      (structDeFields fs s).map fun (vs, s') => (f.dflt :: vs, s')
    else do
      let (v, s') ← f.de s
      (structDeFields fs s').map fun (vs, s'') => (v :: vs, s'')

/-- `struct_de`: construct the value field by field, then — when the
type's attributes name an `init` hook — call the hook on the completed
value before returning it (`let mut return_value = ...;
return_value.method(); Ok(return_value)`); with no hook the completed
value is returned as is. -/
def structDe {V ρ : Type} (fields : List (FieldS V ρ))
    (hook : Option (List V → List V)) (s : ρ) :
    Except IoErr (List V × ρ) := do
  let (vs, s') ← structDeFields fields s
  match hook with
  | none => .ok (vs, s')
  | some m => .ok (m vs, s')

/-- `enum_ser`: for the value in the variant at declaration position
`idx` with payload values `payload`, write the single discriminant byte
(`variant_idx as u8`, i.e. `idx % 256`), then serialize the
non-skipped payload fields of the variant in order exactly as
`struct_ser` does. The
generated `match` is exhaustive over declared variants, so `idx` always
names one. -/
def enumSer {V ρ : Type} (variants : List (List (FieldS V ρ)))
    (idx : Nat) (payload : List V) : Bytes :=
  match variants[idx]? with
  | some fields => idx % 256 :: structSer (fields.zip payload)
  | none => []

end Borsh

namespace Borsh

/-- Instrumented reader for observing the zero-size-element path of
`Vec<T>::deserialize`: the state carries the byte stream plus a counter
of element-decode calls; raw reads pass through to `listRd` and leave
the counter alone. -/
def countRd : Rd (Bytes × Nat) :=
  ⟨fun s n => (listRd.read_exact s.1 n).map fun (bs, s') => (bs, (s', s.2))⟩

/-- Instrument an element decoder so each invocation bumps the counter
component of the state. -/
def countedDe {α : Type} (d : Bytes → Except IoErr (α × Bytes)) :
    Bytes × Nat → Except IoErr (α × (Bytes × Nat)) :=
  fun s => (d s.1).map fun (x, s') => (x, (s', s.2 + 1))

end Borsh

/-- A sample non-skipped byte-valued field for concrete instances. -/
def Borsh.sampleByteField : Borsh.FieldS Nat Borsh.Bytes :=
  ⟨false, fun v => Borsh.leBytes 1 v, Borsh.deserializeU8 Borsh.listRd, 0⟩

/-- A sample skipped byte-valued field (default 0). -/
def Borsh.sampleSkipField : Borsh.FieldS Nat Borsh.Bytes :=
  ⟨true, fun v => Borsh.leBytes 1 v, Borsh.deserializeU8 Borsh.listRd, 0⟩

/-- A 256-variant sum-type descriptor (every variant fieldless). -/
def Borsh.vars256 : List (List (Borsh.FieldS Unit Borsh.Bytes)) :=
  List.replicate 256 []

namespace Borsh

/-- Association-list lookup (the map membership observation used to
state last-wins behavior). -/
def assocLookup {κ ν : Type} [DecidableEq κ] (k : κ) :
    List (κ × ν) → Option ν
  | [] => none
  | p :: ps => if k = p.1 then some p.2 else assocLookup k ps

/-- The value at the last occurrence of key `k` in a pair list. -/
def lastVal {κ ν : Type} [DecidableEq κ] (k : κ) :
    List (κ × ν) → Option ν
  | [] => none
  | p :: ps =>
    match lastVal k ps with
    | some v => some v
    | none => if p.1 = k then some p.2 else none

/-- Modelled from the spec: the wire shape of a map pair section
(each key's encoding followed by its value's encoding, concatenated in
encoded order), used to describe input streams to the map decoders. -/
def encPairs {κ ν : Type} (encK : κ → Bytes) (encV : ν → Bytes)
    (ps : List (κ × ν)) : Bytes :=
  (ps.map fun p => encK p.1 ++ encV p.2).flatten

end Borsh

namespace Borsh

/-- Modelled from the spec: missing `BorshSerialize` impl for
`Box<[u8]>` (4-byte little-endian byte count, then the raw bytes). -/
def encodeBoxBytes (bs : Bytes) : Bytes := encodeU32 bs.length ++ bs

/-- A pair decoder (`impl_tuples`): the two slots decoded in order. -/
def deserializeTuple2 {ρ α β : Type} (d1 : ρ → Except IoErr (α × ρ))
    (d2 : ρ → Except IoErr (β × ρ)) (s : ρ) :
    Except IoErr ((α × β) × ρ) := do
  let (x, s₁) ← d1 s
  let (y, s₂) ← d2 s₁
  .ok ((x, y), s₂)

/-- Modelled from the spec: missing `BorshSerialize` impl for pairs
(the two slots' encodings concatenated, no length). -/
def encodeTuple2 {α β : Type} (enc1 : α → Bytes) (enc2 : β → Bytes)
    (p : α × β) : Bytes :=
  enc1 p.1 ++ enc2 p.2

/-- The enum `B<F, G>` of `test_generic_struct`, instantiated at
`F = u64`, `G = String`: variant `X { f: Vec<F> }` at position 0,
variant `Y(G)` at position 1. -/
inductive BVal where
  | X (f : List Nat)
  | Y (g : Bytes)
  deriving DecidableEq

/-- The record `A<T, F, G>` of `test_generic_struct`, instantiated at
`T = String`, `F = u64`, `G = String`. -/
structure AVal where
  x : List Bytes
  y : Bytes
  b : BVal
  deriving DecidableEq

/-- The encoder the derive generates for `B<u64, String>` (`enum_ser`
semantics): the declaration-position discriminant byte of the variant,
then
its fields in order. -/
def encodeB : BVal → Bytes
  | .X f => 0 :: encodeVec encodeU64 f
  | .Y g => 1 :: encodeString g

/-- The encoder the derive generates for `A<String, u64, String>`
(`struct_ser` semantics): the three fields in declaration order, none
skipped. -/
def encodeA (a : AVal) : Bytes :=
  encodeVec encodeString a.x ++ encodeString a.y ++ encodeB a.b

/-- Modelled from the spec: the enum decode generator (the `enum_de`
counterpart of `enum_ser.rs`) is not in this source set; per the spec a
sum-type decode reads one discriminant byte, dispatches to the variant
at that declaration position, and fails with a data error on an
unrecognized discriminant. Instantiated for `B<u64, String>`. -/
def deserializeB (s : Bytes) : Except IoErr (BVal × Bytes) := do
  let (disc, s₁) ← deserializeU8 listRd s
  match disc with
  | 0 => do
    let (f, s₂) ← deserializeVec listRd (deserializeU64 listRd) false s₁
    .ok (BVal.X f, s₂)
  | 1 => do
    let (g, s₂) ← deserializeString listRd s₁
    .ok (BVal.Y g, s₂)
  | _ => .error ⟨.invalidData, "Unexpected variant index"⟩

/-- The decoder the derive generates for `A<String, u64, String>`
(`struct_de` semantics): the three fields in declaration order, no
skips, no hook. -/
def deserializeA (s : Bytes) : Except IoErr (AVal × Bytes) := do
  let (x, s₁) ← deserializeVec listRd (deserializeString listRd) false s
  let (y, s₂) ← deserializeString listRd s₁
  let (b, s₃) ← deserializeB s₂
  .ok (⟨x, y, b⟩, s₃)

/-- The value of `test_generic_struct`:
`A { x: vec!["foo", "bar"], y: "world", b: B::X { f: vec![1, 2] } }`
with strings as their UTF-8 bytes. -/
def aTest : AVal :=
  ⟨[[102, 111, 111], [98, 97, 114]], [119, 111, 114, 108, 100],
    .X [1, 2]⟩

end Borsh

namespace Borsh

/-- `u16::deserialize`: two little-endian bytes. -/
def deserializeU16 {ρ : Type} (rd : Rd ρ) (s : ρ) : Except IoErr (Nat × ρ) :=
  deserializeInt rd 2 s

/-- `HashSet::insert` on the list rendering of a hash set: an element
already present is kept, a new element is added. -/
def hashSetInsert {α : Type} [DecidableEq α] (x : α) (m : List α) : List α :=
  if x ∈ m then m else m ++ [x]

/-- `BTreeSet::insert` on the sorted list rendering of an ordered set:
insert before the first larger element, keeping an equal one. -/
def btreeSetInsert (x : Nat) : List Nat → List Nat
  | [] => [x]
  | y :: rest =>
    if x < y then x :: y :: rest
    else if x = y then y :: rest
    else y :: btreeSetInsert x rest

/-- `HashSet<T, S>::deserialize`: deserialize a `Vec<T>` and collect
it, inserting each element in order. -/
def deserializeHashSet {ρ α : Type} [DecidableEq α] (rd : Rd ρ)
    (dT : ρ → Except IoErr (α × ρ)) (tZeroSized : Bool) (s : ρ) :
    Except IoErr (List α × ρ) :=
  (deserializeVec rd dT tZeroSized s).map fun q =>
    (q.1.foldl (fun m x => hashSetInsert x m) [], q.2)

/-- `BTreeSet<T>::deserialize`: deserialize a `Vec<T>` and collect it
into the ordered set. -/
def deserializeBTreeSet {ρ : Type} (rd : Rd ρ)
    (dT : ρ → Except IoErr (Nat × ρ)) (tZeroSized : Bool) (s : ρ) :
    Except IoErr (List Nat × ρ) :=
  (deserializeVec rd dT tZeroSized s).map fun q =>
    (q.1.foldl (fun m x => btreeSetInsert x m) [], q.2)

/-- A `SocketAddrV4` value: the four address bytes and the port. -/
structure SockV4 where
  ip : Bytes
  port : Nat
  deriving DecidableEq, Repr

/-- A `SocketAddrV6` value: the sixteen address bytes, the port, the
flow-info and the scope-id. -/
structure SockV6 where
  ip : Bytes
  port : Nat
  flowinfo : Nat
  scope : Nat
  deriving DecidableEq, Repr

/-- A `SocketAddr` value: either kind of socket address. -/
inductive SockAddr where
  | v4 (a : SockV4)
  | v6 (a : SockV6)
  deriving DecidableEq, Repr

/-- `SocketAddrV4::deserialize`: the `Ipv4Addr` (4 raw bytes via
`read_exact`), then the port as a `u16`. -/
def deserializeSocketAddrV4 {ρ : Type} (rd : Rd ρ) (s : ρ) :
    Except IoErr (SockV4 × ρ) := do
  let (ip, s₁) ← rd.read_exact s 4
  let (port, s₂) ← deserializeU16 rd s₁
  .ok (⟨ip, port⟩, s₂)

/-- `SocketAddrV6::deserialize`: the `Ipv6Addr` (16 raw bytes via
`read_exact`), then the port as a `u16`; flow-info and scope-id are not
on the wire and are reconstructed as zero
(`SocketAddrV6::new(ip, port, 0, 0)`). -/
def deserializeSocketAddrV6 {ρ : Type} (rd : Rd ρ) (s : ρ) :
    Except IoErr (SockV6 × ρ) := do
  let (ip, s₁) ← rd.read_exact s 16
  let (port, s₂) ← deserializeU16 rd s₁
  .ok (⟨ip, port, 0, 0⟩, s₂)

/-- `SocketAddr::deserialize`: a kind byte (`0` IPv4, `1` IPv6)
dispatching to the address decoders; any other kind byte is an
invalid-input error naming the value. -/
def deserializeSocketAddr {ρ : Type} (rd : Rd ρ) (s : ρ) :
    Except IoErr (SockAddr × ρ) := do
  let (kind, s₁) ← deserializeU8 rd s
  match kind with
  | 0 => do
    let (a, s₂) ← deserializeSocketAddrV4 rd s₁
    .ok (.v4 a, s₂)
  | 1 => do
    let (a, s₂) ← deserializeSocketAddrV6 rd s₁
    .ok (.v6 a, s₂)
  | _ => .error ⟨.invalidInput, "Invalid SocketAddr variant: " ++ toString kind⟩

/-- Modelled from the spec: missing `BorshSerialize` impl for
`SocketAddrV4` (4 raw address bytes, then the port as 2 little-endian
bytes). -/
def encodeSocketAddrV4 (a : SockV4) : Bytes := a.ip ++ leBytes 2 a.port

/-- Modelled from the spec: missing `BorshSerialize` impl for
`SocketAddrV6` (16 raw address bytes, then the port as 2 little-endian
bytes; flow-info and scope-id are not represented on the wire). -/
def encodeSocketAddrV6 (a : SockV6) : Bytes := a.ip ++ leBytes 2 a.port

/-- Modelled from the spec: missing `BorshSerialize` impl for
`SocketAddr` (kind byte `0` or `1`, then the address encoding). -/
def encodeSocketAddr : SockAddr → Bytes
  | .v4 a => 0 :: encodeSocketAddrV4 a
  | .v6 a => 1 :: encodeSocketAddrV6 a

/-- An IPv6 socket address with nonzero flow-info (and zero elsewhere),
whose round trip drops the flow-info. -/
def sockV6Flow : SockV6 := ⟨List.replicate 16 0, 0, 1, 0⟩

/-- The `Fields::Unnamed` branch of `struct_ser` (lines 22-33): every
positional field is serialized in declaration order;
`contains_skip` is never consulted. -/
def structSerUnnamed {V ρ : Type} : List (FieldS V ρ × V) → Bytes
  | [] => []
  | (f, v) :: ps => f.ser v ++ structSerUnnamed ps

/-- The `Fields::Unnamed` branch of `struct_de` (lines 29-40): every
positional field is decoded from the reader in order; there is no skip
check and no `Default::default()`. -/
def structDeFieldsUnnamed {V ρ : Type} : List (FieldS V ρ) → ρ →
    Except IoErr (List V × ρ)
  | [], s => .ok ([], s)
  | f :: fs, s => do
    let (v, s') ← f.de s
    (structDeFieldsUnnamed fs s').map fun q => (v :: q.1, q.2)

/-- A 19-slot tuple decoder (`impl_tuples` at its maximum arity): the
slots decoded sequentially in declared order. -/
def deserializeTuple19 {ρ A1 A2 A3 A4 A5 A6 A7 A8 A9 A10 A11 A12 A13 A14 A15 A16 A17 A18 A19 : Type}
    (d1 : ρ → Except IoErr (A1 × ρ))
    (d2 : ρ → Except IoErr (A2 × ρ))
    (d3 : ρ → Except IoErr (A3 × ρ))
    (d4 : ρ → Except IoErr (A4 × ρ))
    (d5 : ρ → Except IoErr (A5 × ρ))
    (d6 : ρ → Except IoErr (A6 × ρ))
    (d7 : ρ → Except IoErr (A7 × ρ))
    (d8 : ρ → Except IoErr (A8 × ρ))
    (d9 : ρ → Except IoErr (A9 × ρ))
    (d10 : ρ → Except IoErr (A10 × ρ))
    (d11 : ρ → Except IoErr (A11 × ρ))
    (d12 : ρ → Except IoErr (A12 × ρ))
    (d13 : ρ → Except IoErr (A13 × ρ))
    (d14 : ρ → Except IoErr (A14 × ρ))
    (d15 : ρ → Except IoErr (A15 × ρ))
    (d16 : ρ → Except IoErr (A16 × ρ))
    (d17 : ρ → Except IoErr (A17 × ρ))
    (d18 : ρ → Except IoErr (A18 × ρ))
    (d19 : ρ → Except IoErr (A19 × ρ))
    (s : ρ) : Except IoErr ((A1 × A2 × A3 × A4 × A5 × A6 × A7 × A8 × A9 × A10 × A11 × A12 × A13 × A14 × A15 × A16 × A17 × A18 × A19) × ρ) := do
  let (x1, s1) ← d1 s
  let (x2, s2) ← d2 s1
  let (x3, s3) ← d3 s2
  let (x4, s4) ← d4 s3
  let (x5, s5) ← d5 s4
  let (x6, s6) ← d6 s5
  let (x7, s7) ← d7 s6
  let (x8, s8) ← d8 s7
  let (x9, s9) ← d9 s8
  let (x10, s10) ← d10 s9
  let (x11, s11) ← d11 s10
  let (x12, s12) ← d12 s11
  let (x13, s13) ← d13 s12
  let (x14, s14) ← d14 s13
  let (x15, s15) ← d15 s14
  let (x16, s16) ← d16 s15
  let (x17, s17) ← d17 s16
  let (x18, s18) ← d18 s17
  let (x19, s19) ← d19 s18
  .ok ((x1, x2, x3, x4, x5, x6, x7, x8, x9, x10, x11, x12, x13, x14, x15, x16, x17, x18, x19), s19)

/-- Modelled from the spec: missing `BorshSerialize` impl for 19-slot
tuples (the slot encodings concatenated in declared order, no length). -/
def encodeTuple19 {A1 A2 A3 A4 A5 A6 A7 A8 A9 A10 A11 A12 A13 A14 A15 A16 A17 A18 A19 : Type}
    (e1 : A1 → Bytes)
    (e2 : A2 → Bytes)
    (e3 : A3 → Bytes)
    (e4 : A4 → Bytes)
    (e5 : A5 → Bytes)
    (e6 : A6 → Bytes)
    (e7 : A7 → Bytes)
    (e8 : A8 → Bytes)
    (e9 : A9 → Bytes)
    (e10 : A10 → Bytes)
    (e11 : A11 → Bytes)
    (e12 : A12 → Bytes)
    (e13 : A13 → Bytes)
    (e14 : A14 → Bytes)
    (e15 : A15 → Bytes)
    (e16 : A16 → Bytes)
    (e17 : A17 → Bytes)
    (e18 : A18 → Bytes)
    (e19 : A19 → Bytes)
    (p : A1 × A2 × A3 × A4 × A5 × A6 × A7 × A8 × A9 × A10 × A11 × A12 × A13 × A14 × A15 × A16 × A17 × A18 × A19) : Bytes :=
  e1 p.1 ++
    e2 p.2.1 ++
    e3 p.2.2.1 ++
    e4 p.2.2.2.1 ++
    e5 p.2.2.2.2.1 ++
    e6 p.2.2.2.2.2.1 ++
    e7 p.2.2.2.2.2.2.1 ++
    e8 p.2.2.2.2.2.2.2.1 ++
    e9 p.2.2.2.2.2.2.2.2.1 ++
    e10 p.2.2.2.2.2.2.2.2.2.1 ++
    e11 p.2.2.2.2.2.2.2.2.2.2.1 ++
    e12 p.2.2.2.2.2.2.2.2.2.2.2.1 ++
    e13 p.2.2.2.2.2.2.2.2.2.2.2.2.1 ++
    e14 p.2.2.2.2.2.2.2.2.2.2.2.2.2.1 ++
    e15 p.2.2.2.2.2.2.2.2.2.2.2.2.2.2.1 ++
    e16 p.2.2.2.2.2.2.2.2.2.2.2.2.2.2.2.1 ++
    e17 p.2.2.2.2.2.2.2.2.2.2.2.2.2.2.2.2.1 ++
    e18 p.2.2.2.2.2.2.2.2.2.2.2.2.2.2.2.2.2.1 ++
    e19 p.2.2.2.2.2.2.2.2.2.2.2.2.2.2.2.2.2.2

end Borsh

/-- The little-endian bytes of `n` at width `w` reassemble to `n`
whenever `n` fits in `w` bytes. -/
theorem Borsh.fromLe_leBytes {w n : Nat} (h : n < 2 ^ (8 * w)) :
    Borsh.fromLe (Borsh.leBytes w n) = n := by
  induction w generalizing n with
  | zero =>
    simp only [Nat.mul_zero, Nat.pow_zero, Nat.lt_one_iff] at h
    simp [Borsh.leBytes, Borsh.fromLe, h]
  | succ w ih =>
    have hdiv : n / 256 < 2 ^ (8 * w) := by
      rw [Nat.div_lt_iff_lt_mul (by norm_num)]
      calc n < 2 ^ (8 * (w + 1)) := h
        _ = 2 ^ (8 * w) * 256 := by ring
    simp [Borsh.leBytes, Borsh.fromLe, ih hdiv, Nat.mod_add_div]

/-- Every byte produced by `leBytes` is below 256. -/
theorem Borsh.leBytes_lt {w n : Nat} {b : Nat} (hb : b ∈ Borsh.leBytes w n) :
    b < 256 := by
  induction w generalizing n with
  | zero => simp [Borsh.leBytes] at hb
  | succ w ih =>
    simp only [Borsh.leBytes, List.mem_cons] at hb
    rcases hb with h | h
    · subst h; exact Nat.mod_lt _ (by norm_num)
    · exact ih h

/-- `leBytes` produces exactly `w` bytes. -/
theorem Borsh.leBytes_length (w n : Nat) : (Borsh.leBytes w n).length = w := by
  induction w generalizing n with
  | zero => rfl
  | succ w ih => simp [Borsh.leBytes, ih]

/-- `listRd.read_exact` on a stream starting with a block of the right
length returns that block and leaves the tail. -/
theorem Borsh.read_exact_append {bs rest : Borsh.Bytes} {w : Nat}
    (h : bs.length = w) :
    Borsh.listRd.read_exact (bs ++ rest) w = .ok (bs, rest) := by
  subst h
  simp [Borsh.listRd, List.take_left, List.drop_left]

/-- Decoding an integer off a stream that starts with its little-endian
encoding returns the integer and the tail. -/
theorem Borsh.deserializeInt_encode {w n : Nat} (rest : Borsh.Bytes)
    (h : n < 2 ^ (8 * w)) :
    Borsh.deserializeInt Borsh.listRd w (Borsh.leBytes w n ++ rest) =
      .ok (n, rest) := by
  simp [Borsh.deserializeInt,
    Borsh.read_exact_append (Borsh.leBytes_length w n),
    Borsh.fromLe_leBytes h, Except.map]

/-- Reading one byte off a nonempty stream yields its head. -/
theorem Borsh.read_exact_cons (b : Nat) (rest : Borsh.Bytes) :
    Borsh.listRd.read_exact (b :: rest) 1 = .ok ([b], rest) :=
  @Borsh.read_exact_append [b] rest 1 rfl

/-- Reading four bytes off a stream with at least four yields them. -/
theorem Borsh.read_exact_cons4 (b0 b1 b2 b3 : Nat) (rest : Borsh.Bytes) :
    Borsh.listRd.read_exact (b0 :: b1 :: b2 :: b3 :: rest) 4 =
      .ok ([b0, b1, b2, b3], rest) :=
  @Borsh.read_exact_append [b0, b1, b2, b3] rest 4 rfl

/-- Reading eight bytes off a stream with at least eight yields them. -/
theorem Borsh.read_exact_cons8 (b0 b1 b2 b3 b4 b5 b6 b7 : Nat)
    (rest : Borsh.Bytes) :
    Borsh.listRd.read_exact
        (b0 :: b1 :: b2 :: b3 :: b4 :: b5 :: b6 :: b7 :: rest) 8 =
      .ok ([b0, b1, b2, b3, b4, b5, b6, b7], rest) :=
  @Borsh.read_exact_append [b0, b1, b2, b3, b4, b5, b6, b7] rest 8 rfl

/-- C6: for every single-byte input `b`, boolean decode succeeds and
returns true exactly when `b = 1`; every other byte value (0 and 2
through 255) decodes to false, never to an error. -/
theorem Borsh.c6_bool_decode_permissive :
    (∀ (b : Nat) (rest : Borsh.Bytes),
      Borsh.deserializeBool Borsh.listRd (b :: rest) = .ok (b == 1, rest)) ∧
    (∀ rest : Borsh.Bytes,
      Borsh.deserializeBool Borsh.listRd (1 :: rest) = .ok (true, rest)) ∧
    (∀ (b : Nat) (rest : Borsh.Bytes), b ≠ 1 →
      Borsh.deserializeBool Borsh.listRd (b :: rest) = .ok (false, rest)) := by
  have hgen : ∀ (b : Nat) (rest : Borsh.Bytes),
      Borsh.deserializeBool Borsh.listRd (b :: rest) = .ok (b == 1, rest) := by
    intro b rest
    simp [Borsh.deserializeBool, Borsh.read_exact_cons, Except.map]
  refine ⟨hgen, fun rest => by simpa using hgen 1 rest, fun b rest hb => ?_⟩
  rw [hgen b rest]
  simp [hb]

/-- Witness for C6 at the non-canonical byte 7. -/
theorem Borsh.c6_witness :
    Borsh.deserializeBool Borsh.listRd (7 :: []) = .ok (false, []) :=
  Borsh.c6_bool_decode_permissive.2.2 7 [] (by decide)

/-- C5: decoding a 4-byte (f32) or 8-byte (f64) input whose
little-endian IEEE-754 bit pattern is a NaN fails with an invalid-input
error, regardless of sign or payload bits; a non-NaN pattern decodes to
the float with exactly those bits. -/
theorem Borsh.c5_float_nan_rejection :
    (∀ (b0 b1 b2 b3 : Nat) (rest : Borsh.Bytes),
      Borsh.isNan32 (Borsh.fromLe [b0, b1, b2, b3]) = true →
      Borsh.deserializeF32 Borsh.listRd (b0 :: b1 :: b2 :: b3 :: rest) =
        .error Borsh.nanErr) ∧
    (∀ (b0 b1 b2 b3 : Nat) (rest : Borsh.Bytes),
      Borsh.isNan32 (Borsh.fromLe [b0, b1, b2, b3]) = false →
      Borsh.deserializeF32 Borsh.listRd (b0 :: b1 :: b2 :: b3 :: rest) =
        .ok (Borsh.fromLe [b0, b1, b2, b3], rest)) ∧
    (∀ (b0 b1 b2 b3 b4 b5 b6 b7 : Nat) (rest : Borsh.Bytes),
      Borsh.isNan64 (Borsh.fromLe [b0, b1, b2, b3, b4, b5, b6, b7]) = true →
      Borsh.deserializeF64 Borsh.listRd
          (b0 :: b1 :: b2 :: b3 :: b4 :: b5 :: b6 :: b7 :: rest) =
        .error Borsh.nanErr) ∧
    (∀ (b0 b1 b2 b3 b4 b5 b6 b7 : Nat) (rest : Borsh.Bytes),
      Borsh.isNan64 (Borsh.fromLe [b0, b1, b2, b3, b4, b5, b6, b7]) = false →
      Borsh.deserializeF64 Borsh.listRd
          (b0 :: b1 :: b2 :: b3 :: b4 :: b5 :: b6 :: b7 :: rest) =
        .ok (Borsh.fromLe [b0, b1, b2, b3, b4, b5, b6, b7], rest)) := by
  refine ⟨fun b0 b1 b2 b3 rest h => ?_, fun b0 b1 b2 b3 rest h => ?_,
    fun b0 b1 b2 b3 b4 b5 b6 b7 rest h => ?_,
    fun b0 b1 b2 b3 b4 b5 b6 b7 rest h => ?_⟩ <;>
    simp [Borsh.deserializeF32, Borsh.deserializeF64, Borsh.read_exact_cons4,
      Borsh.read_exact_cons8, h, Bind.bind, Except.bind]

/-- Witness for C5: the quiet-NaN pattern `0x7FC00000` is rejected, the
pattern of `1.0f32` decodes to its own bits. -/
theorem Borsh.c5_witness :
    Borsh.deserializeF32 Borsh.listRd [0, 0, 0xC0, 0x7F] =
        .error Borsh.nanErr ∧
    Borsh.deserializeF32 Borsh.listRd [0, 0, 0x80, 0x3F] =
        .ok (Borsh.fromLe [0, 0, 0x80, 0x3F], []) :=
  ⟨Borsh.c5_float_nan_rejection.1 0 0 0xC0 0x7F [] (by decide),
    Borsh.c5_float_nan_rejection.2.1 0 0 0x80 0x3F [] (by decide)⟩

/-- C4: for a decoder that consumes exactly the encoding of `v` off the
front of a stream, `try_from_slice` succeeds on a buffer that is
exactly that encoding and fails with the invalid-data error "Not all
bytes read" as soon as at least one trailing byte follows it. -/
theorem Borsh.c4_try_from_slice_strict {α : Type}
    (d : Borsh.Bytes → Except Borsh.IoErr (α × Borsh.Bytes))
    (enc : Borsh.Bytes) (v : α)
    (h : ∀ rest, d (enc ++ rest) = .ok (v, rest)) :
    Borsh.try_from_slice d enc = .ok v ∧
    ∀ (b : Nat) (extra : Borsh.Bytes),
      Borsh.try_from_slice d (enc ++ b :: extra) =
        .error Borsh.notAllBytesReadErr := by
  constructor
  · have h0 := h []
    rw [List.append_nil] at h0
    simp [Borsh.try_from_slice, h0, Bind.bind, Except.bind]
  · intro b extra
    simp [Borsh.try_from_slice, h (b :: extra), Bind.bind, Except.bind]

/-- Witness for C4 at the `u32` codec and the value 7. -/
theorem Borsh.c4_witness :
    Borsh.try_from_slice (Borsh.deserializeU32 Borsh.listRd)
        (Borsh.encodeU32 7) = .ok 7 ∧
    Borsh.try_from_slice (Borsh.deserializeU32 Borsh.listRd)
        (Borsh.encodeU32 7 ++ 9 :: []) = .error Borsh.notAllBytesReadErr := by
  have h := Borsh.c4_try_from_slice_strict
    (Borsh.deserializeU32 Borsh.listRd) (Borsh.encodeU32 7) 7
    (fun rest => Borsh.deserializeInt_encode rest (by norm_num))
  exact ⟨h.1, h.2 9 []⟩

/-- C2: decoding a dynamic sequence of a zero-size element type with a
4-byte declared length `len` makes exactly one internal element-decode
call (the counter ends at 1), performs no stream reads beyond the
length prefix and that single call (the stream component ends at
`rest`), and returns a sequence of length `len`; for `len = 5` the
result has exactly the 5 replicated elements. -/
theorem Borsh.c2_vec_zero_size {α : Type} (x : α) (len : Nat)
    (rest : Borsh.Bytes) (hlen : len < 2 ^ 32) :
    Borsh.deserializeVec Borsh.countRd (Borsh.countedDe fun s => .ok (x, s))
        true (Borsh.encodeU32 len ++ rest, 0) =
      .ok (List.replicate len x, (rest, 1)) ∧
    (List.replicate len x).length = len ∧
    Borsh.deserializeVec Borsh.countRd (Borsh.countedDe fun s => .ok (x, s))
        true (Borsh.encodeU32 5 ++ rest, 0) =
      .ok ([x, x, x, x, x], (rest, 1)) := by
  have hu32 : ∀ (n : Nat), n < 2 ^ 32 →
      Borsh.deserializeU32 Borsh.countRd (Borsh.encodeU32 n ++ rest, 0) =
        .ok (n, (rest, 0)) := by
    intro n hn
    have hread := @Borsh.read_exact_append (Borsh.leBytes 4 n) rest 4
      (Borsh.leBytes_length 4 n)
    simp [Borsh.deserializeU32, Borsh.deserializeInt, Borsh.countRd,
      Borsh.encodeU32, hread, Except.map,
      Borsh.fromLe_leBytes (w := 4) (by norm_num at hn ⊢; exact hn)]
  refine ⟨?_, List.length_replicate .., ?_⟩
  · simp [Borsh.deserializeVec, hu32 len hlen, Borsh.countedDe, Except.map,
      Bind.bind, Except.bind]
  · have h5 := hu32 5 (by norm_num)
    simp [Borsh.deserializeVec, h5, Borsh.countedDe, Except.map,
      Bind.bind, Except.bind, List.replicate]

/-- Witness for C2 at `len = 5` over the unit element type. -/
theorem Borsh.c2_witness :
    Borsh.deserializeVec Borsh.countRd
        (Borsh.countedDe fun s => .ok ((), s)) true
        (Borsh.encodeU32 5 ++ [], 0) =
      .ok (List.replicate 5 (), ([], 1)) :=
  (Borsh.c2_vec_zero_size () 5 [] (by norm_num)).1

/-- If the first `k` element decodes succeed and the next fails, the
plain element loop (used by `Vec<T>`) propagates that element error
unchanged whenever it is asked for more than `k` elements. -/
theorem Borsh.deserializeElems_fail {ρ α : Type}
    {d : ρ → Except Borsh.IoErr (α × ρ)} :
    ∀ {k n : Nat} {s s' : ρ} {xs : List α} {e : Borsh.IoErr},
    Borsh.deserializeElems d k s = .ok (xs, s') → d s' = .error e →
    k < n → Borsh.deserializeElems d n s = .error e := by
  intro k
  induction k with
  | zero =>
    intro n s s' xs e hok hfail hlt
    obtain ⟨m, rfl⟩ : ∃ m, n = m + 1 := ⟨n - 1, by omega⟩
    simp only [Borsh.deserializeElems] at hok
    obtain ⟨rfl, rfl⟩ : xs = [] ∧ s' = s := by
      simpa [Prod.ext_iff] using hok.symm
    simp [Borsh.deserializeElems, hfail, Bind.bind, Except.bind]
  | succ k ih =>
    intro n s s' xs e hok hfail hlt
    obtain ⟨m, rfl⟩ : ∃ m, n = m + 1 := ⟨n - 1, by omega⟩
    simp only [Borsh.deserializeElems, Bind.bind, Except.bind] at hok
    cases hd : d s with
    | error e' => simp [hd] at hok
    | ok p =>
      rw [hd] at hok
      simp only [] at hok
      cases hrest : Borsh.deserializeElems d k p.2 with
      | error e' => simp [hrest] at hok
      | ok q =>
        rw [hrest] at hok
        simp only [Except.ok.injEq, Prod.mk.injEq] at hok
        obtain ⟨h1, h2⟩ := hok
        subst h1
        subst h2
        have := ih (n := m) hrest hfail (by omega)
        simp [Borsh.deserializeElems, hd, this, Bind.bind, Except.bind]

/-- If the first `k` element decodes succeed and the next fails with
`e`, the array loop started at index offset `j` fails with `e` wrapped
at index `j + k`. -/
theorem Borsh.deserializeArrayAux_fail {ρ α : Type}
    {d : ρ → Except Borsh.IoErr (α × ρ)} :
    ∀ {k j n : Nat} {s s' : ρ} {xs : List α} {e : Borsh.IoErr},
    Borsh.deserializeElems d k s = .ok (xs, s') → d s' = .error e →
    k < n →
    Borsh.deserializeArrayAux d j n s = .error (Borsh.annotateAt (j + k) e) := by
  intro k
  induction k with
  | zero =>
    intro j n s s' xs e hok hfail hlt
    obtain ⟨m, rfl⟩ : ∃ m, n = m + 1 := ⟨n - 1, by omega⟩
    simp only [Borsh.deserializeElems] at hok
    obtain ⟨rfl, rfl⟩ : xs = [] ∧ s' = s := by
      simpa [Prod.ext_iff] using hok.symm
    simp [Borsh.deserializeArrayAux, hfail]
  | succ k ih =>
    intro j n s s' xs e hok hfail hlt
    obtain ⟨m, rfl⟩ : ∃ m, n = m + 1 := ⟨n - 1, by omega⟩
    simp only [Borsh.deserializeElems, Bind.bind, Except.bind] at hok
    cases hd : d s with
    | error e' => simp [hd] at hok
    | ok p =>
      rw [hd] at hok
      simp only [] at hok
      cases hrest : Borsh.deserializeElems d k p.2 with
      | error e' => simp [hrest] at hok
      | ok q =>
        rw [hrest] at hok
        simp only [Except.ok.injEq, Prod.mk.injEq] at hok
        obtain ⟨h1, h2⟩ := hok
        subst h1
        subst h2
        have := ih (j := j + 1) (n := m) hrest hfail (by omega)
        simp only [Borsh.deserializeArrayAux, hd, this, Except.map]
        congr 2
        omega

/-- If decoding an initial run of fields succeeds and the next
non-skipped field decode fails with `e`, the generated struct decoder
fails with `e` itself, unwrapped. -/
theorem Borsh.structDeFields_fail {V ρ : Type} :
    ∀ (fs1 : List (Borsh.FieldS V ρ)) {f : Borsh.FieldS V ρ}
      (fs2 : List (Borsh.FieldS V ρ)) {s s' : ρ} {vs : List V}
      {e : Borsh.IoErr},
    Borsh.structDeFields fs1 s = .ok (vs, s') → f.skip = false →
    f.de s' = .error e →
    Borsh.structDeFields (fs1 ++ f :: fs2) s = .error e := by
  intro fs1
  induction fs1 with
  | nil =>
    intro f fs2 s s' vs e hok hskip hfail
    obtain ⟨rfl, rfl⟩ : vs = [] ∧ s' = s := by
      simpa [Prod.ext_iff, Borsh.structDeFields] using hok.symm
    simp [Borsh.structDeFields, hskip, hfail, Bind.bind, Except.bind]
  | cons g gs ih =>
    intro f fs2 s s' vs e hok hskip hfail
    rw [List.cons_append]
    by_cases hg : g.skip
    · simp only [Borsh.structDeFields, hg, if_true] at hok ⊢
      cases hrest : Borsh.structDeFields gs s with
      | error e' => simp [hrest, Except.map] at hok
      | ok q =>
        rw [hrest] at hok
        simp only [Except.map, Except.ok.injEq, Prod.mk.injEq] at hok
        obtain ⟨h1, h2⟩ := hok
        subst h1
        subst h2
        rw [ih fs2 hrest hskip hfail]
        rfl
    · simp only [Borsh.structDeFields, hg, Bool.false_eq_true, if_false,
        Bind.bind, Except.bind] at hok ⊢
      cases hd : g.de s with
      | error e' => simp [hd] at hok
      | ok p =>
        rw [hd] at hok
        simp only [] at hok
        show Except.map (fun x => (p.1 :: x.1, x.2))
            (Borsh.structDeFields (gs ++ f :: fs2) p.2) = Except.error e
        cases hrest : Borsh.structDeFields gs p.2 with
        | error e' => simp [hrest, Except.map] at hok
        | ok q =>
          rw [hrest] at hok
          simp only [Except.map, Except.ok.injEq, Prod.mk.injEq] at hok
          obtain ⟨h1, h2⟩ := hok
          subst h1
          subst h2
          rw [ih fs2 hrest hskip hfail]
          rfl

/-- C3 counterexample: a dynamic-sequence decode whose element decode
fails does not wrap the error with any element-index annotation — it
fails with the sub-decode's error verbatim (here the raw `UnexpectedEof`
from `read_exact`), and a derived product decode behaves the same;
only fixed-size arrays annotate. -/
theorem Borsh.c3_counterexample :
    Borsh.deserializeVec Borsh.listRd (Borsh.deserializeU8 Borsh.listRd) false
        (Borsh.encodeU32 1) = .error Borsh.eofErr ∧
    Borsh.structDeFields
        [(⟨false, fun _ => [], Borsh.deserializeU8 Borsh.listRd, 0⟩ :
          Borsh.FieldS Nat Borsh.Bytes)] [] =
      .error Borsh.eofErr ∧
    Borsh.eofErr.msg = "failed to fill whole buffer" :=
  ⟨rfl, rfl, rfl⟩

/-- C3 (amended): when a sub-decode fails, a fixed-size array decode
wraps the error with an invalid-data annotation naming the failing
element index, while dynamic-sequence and derived product decodes
terminate with the sub-decode's error propagated unchanged (no
index/field annotation); in every case the composite decode terminates
with that failure. -/
theorem Borsh.c3_error_annotation :
    (∀ {ρ α : Type} (d : ρ → Except Borsh.IoErr (α × ρ))
      {k n : Nat} {s s' : ρ} {xs : List α} {e : Borsh.IoErr},
      Borsh.deserializeElems d k s = .ok (xs, s') → d s' = .error e →
      k < n → Borsh.deserializeArray d n s = .error (Borsh.annotateAt k e)) ∧
    (∀ {α : Type} (d : Borsh.Bytes → Except Borsh.IoErr (α × Borsh.Bytes))
      {len k : Nat} {s s' : Borsh.Bytes} {xs : List α} {e : Borsh.IoErr},
      len < 2 ^ 32 → Borsh.deserializeElems d k s = .ok (xs, s') →
      d s' = .error e → k < len →
      Borsh.deserializeVec Borsh.listRd d false (Borsh.encodeU32 len ++ s) =
        .error e) ∧
    (∀ {V ρ : Type} (fs1 : List (Borsh.FieldS V ρ)) (f : Borsh.FieldS V ρ)
      (fs2 : List (Borsh.FieldS V ρ)) (hook : Option (List V → List V))
      {s s' : ρ} {vs : List V} {e : Borsh.IoErr},
      Borsh.structDeFields fs1 s = .ok (vs, s') → f.skip = false →
      f.de s' = .error e →
      Borsh.structDe (fs1 ++ f :: fs2) hook s = .error e) := by
  refine ⟨?_, ?_, ?_⟩
  · intro ρ α d k n s s' xs e hok hfail hlt
    have := Borsh.deserializeArrayAux_fail (j := 0) hok hfail hlt
    simpa [Borsh.deserializeArray] using this
  · intro α d len k s s' xs e hlen hok hfail hlt
    have hu32 : Borsh.deserializeU32 Borsh.listRd (Borsh.encodeU32 len ++ s) =
        .ok (len, s) :=
      Borsh.deserializeInt_encode s (by norm_num at hlen ⊢; exact hlen)
    have helems := Borsh.deserializeElems_fail hok hfail hlt
    simp [Borsh.deserializeVec, hu32, helems, Bind.bind, Except.bind]
  · intro V ρ fs1 f fs2 hook s s' vs e hok hskip hfail
    have := Borsh.structDeFields_fail fs1 fs2 hok hskip hfail
    simp [Borsh.structDe, this, Bind.bind, Except.bind]

/-- Witness for the amended C3: decoding `[u8; 2]` from the single-byte
stream `[7]` consumes element 0 and fails at element 1 with the
annotated error; decoding `Vec<u8>` with declared length 2 from the
same bytes fails with the raw error. -/
theorem Borsh.c3_witness :
    Borsh.deserializeArray (Borsh.deserializeU8 Borsh.listRd) 2 [7] =
        .error (Borsh.annotateAt 1 Borsh.eofErr) ∧
    Borsh.deserializeVec Borsh.listRd (Borsh.deserializeU8 Borsh.listRd) false
        (Borsh.encodeU32 2 ++ [7]) = .error Borsh.eofErr :=
  ⟨Borsh.c3_error_annotation.1 (Borsh.deserializeU8 Borsh.listRd)
      (k := 1) (s := [7]) rfl rfl (by norm_num),
    Borsh.c3_error_annotation.2.1 (Borsh.deserializeU8 Borsh.listRd)
      (k := 1) (s := [7]) (by norm_num) rfl rfl (by norm_num)⟩

/-- Round-trip through the generated struct codec: if each non-skipped
field codec accepts its own output on that field value, decoding the
generated serializer's output yields the field values with every
skipped position replaced by its default. -/
theorem Borsh.structSer_structDeFields {V : Type} :
    ∀ (pairs : List (Borsh.FieldS V Borsh.Bytes × V)),
    (∀ p ∈ pairs, p.1.skip = false →
      ∀ rest, p.1.de (p.1.ser p.2 ++ rest) = .ok (p.2, rest)) →
    ∀ rest,
      Borsh.structDeFields (pairs.map Prod.fst)
          (Borsh.structSer pairs ++ rest) =
        .ok (pairs.map fun p => if p.1.skip then p.1.dflt else p.2, rest) := by
  intro pairs
  induction pairs with
  | nil =>
    intro _ rest
    simp [Borsh.structSer, Borsh.structDeFields]
  | cons p ps ih =>
    intro h rest
    have hhead := h p (List.mem_cons_self p ps)
    have htail : ∀ q ∈ ps, q.1.skip = false →
        ∀ rest, q.1.de (q.1.ser q.2 ++ rest) = .ok (q.2, rest) :=
      fun q hq => h q (List.mem_cons_of_mem p hq)
    by_cases hskip : p.1.skip
    · simp only [List.map_cons, Borsh.structSer, hskip, if_true,
        Borsh.structDeFields, ih htail rest, Except.map]
    · have hser : Borsh.structSer (p :: ps) =
          p.1.ser p.2 ++ Borsh.structSer ps := by
        simp [Borsh.structSer, hskip]
      rw [List.map_cons, hser, List.append_assoc]
      simp only [Borsh.structDeFields, hskip, Bool.false_eq_true, if_false,
        Bind.bind, Except.bind, hhead (by simpa using hskip)
          (Borsh.structSer ps ++ rest)]
      simp [ih htail rest, Except.map, hskip]

/-- Round-trip through the tuple-struct codec: every positional field
is written and read back in order; the skip flag has no effect in
either direction. -/
theorem Borsh.structSerUnnamed_structDeFieldsUnnamed {V : Type} :
    ∀ (pairs : List (Borsh.FieldS V Borsh.Bytes × V)),
    (∀ p ∈ pairs, ∀ rest, p.1.de (p.1.ser p.2 ++ rest) = .ok (p.2, rest)) →
    ∀ rest,
      Borsh.structDeFieldsUnnamed (pairs.map Prod.fst)
          (Borsh.structSerUnnamed pairs ++ rest) =
        .ok (pairs.map Prod.snd, rest) := by
  intro pairs
  induction pairs with
  | nil =>
    intro _ rest
    simp [Borsh.structSerUnnamed, Borsh.structDeFieldsUnnamed]
  | cons p ps ih =>
    intro h rest
    have hhead := h p (List.mem_cons_self p ps)
      (Borsh.structSerUnnamed ps ++ rest)
    have htail := ih (fun q hq => h q (List.mem_cons_of_mem p hq)) rest
    simp only [List.map_cons, Borsh.structSerUnnamed, List.append_assoc,
      Borsh.structDeFieldsUnnamed, Bind.bind, Except.bind, hhead, htail,
      Except.map]

/-- C7 (amended): for derived product types with named fields the
generated encoder writes no bytes for a field flagged skip (serializing
only the other fields in declaration order), the generated decoder
consumes no bytes for it and fills it with the field default value, and
decoding the encoding of any field-value assignment yields the values
with every skipped position reset to its default; for tuple
(unnamed-field) products the generated code ignores the skip flag
entirely — every positional field is serialized and decoded normally,
so such values round-trip unchanged. -/
theorem Borsh.c7_skip_field :
    (∀ {V ρ : Type} (f : Borsh.FieldS V ρ) (v : V)
      (ps : List (Borsh.FieldS V ρ × V)), f.skip = true →
      Borsh.structSer ((f, v) :: ps) = Borsh.structSer ps) ∧
    (∀ {V ρ : Type} (f : Borsh.FieldS V ρ) (fs : List (Borsh.FieldS V ρ))
      (s : ρ), f.skip = true →
      Borsh.structDeFields (f :: fs) s =
        (Borsh.structDeFields fs s).map fun q => (f.dflt :: q.1, q.2)) ∧
    (∀ {V : Type} (pairs : List (Borsh.FieldS V Borsh.Bytes × V)),
      (∀ p ∈ pairs, p.1.skip = false →
        ∀ rest, p.1.de (p.1.ser p.2 ++ rest) = .ok (p.2, rest)) →
      ∀ rest,
        Borsh.structDe (pairs.map Prod.fst) none
            (Borsh.structSer pairs ++ rest) =
          .ok (pairs.map fun p => if p.1.skip then p.1.dflt else p.2, rest)) ∧
    (∀ {V ρ : Type} (f : Borsh.FieldS V ρ) (v : V)
      (ps : List (Borsh.FieldS V ρ × V)), f.skip = true →
      Borsh.structSerUnnamed ((f, v) :: ps) =
        f.ser v ++ Borsh.structSerUnnamed ps) ∧
    (∀ {V : Type} (pairs : List (Borsh.FieldS V Borsh.Bytes × V)),
      (∀ p ∈ pairs, ∀ rest, p.1.de (p.1.ser p.2 ++ rest) = .ok (p.2, rest)) →
      ∀ rest,
        Borsh.structDeFieldsUnnamed (pairs.map Prod.fst)
            (Borsh.structSerUnnamed pairs ++ rest) =
          .ok (pairs.map Prod.snd, rest)) := by
  refine ⟨?_, ?_, ?_, ?_, ?_⟩
  · intro V ρ f v ps h
    simp [Borsh.structSer, h]
  · intro V ρ f fs s h
    simp [Borsh.structDeFields, h]
  · intro V pairs h rest
    simp [Borsh.structDe, Borsh.structSer_structDeFields pairs h rest,
      Bind.bind, Except.bind]
  · intro V ρ f v ps _
    simp [Borsh.structSerUnnamed]
  · intro V pairs h rest
    exact Borsh.structSerUnnamed_structDeFieldsUnnamed pairs h rest

/-- C7 counterexample: in a tuple (unnamed-field) product the generated
code ignores the skip flag — the encoder writes the byte of the
skip-flagged field, the decoder consumes it, and the round trip
preserves the non-default value 9 instead of resetting it to the
default 0; the named-field generator, by contrast, writes nothing. -/
theorem Borsh.c7_counterexample :
    Borsh.structSerUnnamed [(Borsh.sampleSkipField, 9)] = [9] ∧
    Borsh.structDeFieldsUnnamed [Borsh.sampleSkipField]
        (Borsh.structSerUnnamed [(Borsh.sampleSkipField, 9)] ++ []) =
      .ok ([9], []) ∧
    Borsh.structSer [(Borsh.sampleSkipField, 9)] = [] :=
  ⟨rfl, rfl, rfl⟩

/-- Witness for C7: a named-field struct whose second field is skipped
with the non-default value 9 decodes with that field reset to its
default 0, while the same skip-flagged field in a tuple struct is
written and read back as 9. -/
theorem Borsh.c7_witness :
    Borsh.structDe [Borsh.sampleByteField, Borsh.sampleSkipField] none
        (Borsh.structSer
          [(Borsh.sampleByteField, 7), (Borsh.sampleSkipField, 9)] ++ []) =
      .ok ([7, 0], []) ∧
    Borsh.structDeFieldsUnnamed [Borsh.sampleSkipField]
        (Borsh.structSerUnnamed [(Borsh.sampleSkipField, 9)] ++ []) =
      .ok ([9], []) := by
  obtain ⟨-, -, hnamed, -, hunnamed⟩ := Borsh.c7_skip_field
  constructor
  · have h := hnamed [(Borsh.sampleByteField, 7), (Borsh.sampleSkipField, 9)]
      (by
        intro p hp hskip rest
        simp only [List.mem_cons, List.not_mem_nil, or_false] at hp
        rcases hp with rfl | rfl
        · exact Borsh.deserializeInt_encode rest (by norm_num)
        · simp [Borsh.sampleSkipField] at hskip) []
    simpa [Borsh.sampleByteField, Borsh.sampleSkipField] using h
  · have h := hunnamed [(Borsh.sampleSkipField, 9)]
      (by
        intro p hp rest
        simp only [List.mem_cons, List.not_mem_nil, or_false] at hp
        subst hp
        exact Borsh.deserializeInt_encode rest (by norm_num)) []
    simpa using h

/-- `getElem?` on a replicated list inside its length. -/
theorem Borsh.replicate_getElem {α : Type} (a : α) :
    ∀ {n i : Nat}, i < n → (List.replicate n a)[i]? = some a := by
  intro n
  induction n with
  | zero => intro i h; omega
  | succ n ih =>
    intro i h
    cases i with
    | zero => simp [List.replicate]
    | succ i => simpa [List.replicate] using ih (by omega)

/-- C8: the generated enum encoder writes, for the variant at
declaration position `idx`, the single discriminant byte `idx` followed
by that variant's non-skipped fields' encodings in declaration order
(`structSer` of the variant field/value pairs); on a sum type with
exactly 256 variants the assigned discriminants 0..255 are collision
free (the emitted encodings determine the variant index). -/
theorem Borsh.c8_enum_discriminant :
    (∀ {V ρ : Type} (variants : List (List (Borsh.FieldS V ρ))) (idx : Nat)
      (payload : List V) (fields : List (Borsh.FieldS V ρ)),
      idx < 256 → variants[idx]? = some fields →
      Borsh.enumSer variants idx payload =
        idx :: Borsh.structSer (fields.zip payload)) ∧
    (∀ i, i < 256 → Borsh.enumSer Borsh.vars256 i [] = [i]) ∧
    (∀ i j, i < 256 → j < 256 →
      Borsh.enumSer Borsh.vars256 i [] = Borsh.enumSer Borsh.vars256 j [] →
      i = j) := by
  have hfirst : ∀ {V ρ : Type} (variants : List (List (Borsh.FieldS V ρ)))
      (idx : Nat) (payload : List V) (fields : List (Borsh.FieldS V ρ)),
      idx < 256 → variants[idx]? = some fields →
      Borsh.enumSer variants idx payload =
        idx :: Borsh.structSer (fields.zip payload) := by
    intro V ρ variants idx payload fields hidx hget
    simp [Borsh.enumSer, hget, Nat.mod_eq_of_lt hidx]
  have hsingle : ∀ i, i < 256 → Borsh.enumSer Borsh.vars256 i [] = [i] := by
    intro i hi
    rw [hfirst Borsh.vars256 i [] [] hi
      (Borsh.replicate_getElem ([] : List (Borsh.FieldS Unit Borsh.Bytes)) hi)]
    simp [Borsh.structSer]
  refine ⟨hfirst, hsingle, fun i j hi hj heq => ?_⟩
  rw [hsingle i hi, hsingle j hj] at heq
  simpa using heq

/-- Witness for C8: the last of 256 variants gets discriminant 255. -/
theorem Borsh.c8_witness : Borsh.enumSer Borsh.vars256 255 [] = [255] :=
  Borsh.c8_enum_discriminant.2.1 255 (by norm_num)

/-- C9: when a post-construction hook is declared, the generated
decoder applies it (exactly once — the conclusion holds for an
arbitrary hook function) to the fully constructed field-value list,
after all fields are decoded or defaulted and before the value is
returned; with no hook declared the constructed value is returned
untouched. -/
theorem Borsh.c9_init_hook {V ρ : Type} (fields : List (Borsh.FieldS V ρ))
    (m : List V → List V) (s : ρ) (vs : List V) (s' : ρ)
    (h : Borsh.structDeFields fields s = .ok (vs, s')) :
    Borsh.structDe fields (some m) s = .ok (m vs, s') ∧
    Borsh.structDe fields none s = .ok (vs, s') := by
  constructor <;> simp [Borsh.structDe, h, Bind.bind, Except.bind]

/-- Witness for C9: a one-field struct decoded from `[7]` with a hook
that prepends a marker is returned as the hook's single application. -/
theorem Borsh.c9_witness :
    Borsh.structDe [Borsh.sampleByteField] (some fun vs => 0 :: vs) [7] =
        .ok ([0, 7], []) ∧
    Borsh.structDe [Borsh.sampleByteField] none [7] = .ok ([7], []) :=
  Borsh.c9_init_hook [Borsh.sampleByteField] (fun vs => 0 :: vs) [7] [7] []
    rfl

/-- Inserting `(k, v)` makes `k` look up to `v`. -/
theorem Borsh.assocLookup_hashMapInsert_self {κ ν : Type} [DecidableEq κ]
    (k : κ) (v : ν) (m : List (κ × ν)) :
    Borsh.assocLookup k (Borsh.hashMapInsert k v m) = some v := by
  induction m with
  | nil => simp [Borsh.hashMapInsert, Borsh.assocLookup]
  | cons p ps ih =>
    by_cases h : k = p.1
    · simp [Borsh.hashMapInsert, Borsh.assocLookup, h]
    · simp [Borsh.hashMapInsert, Borsh.assocLookup, h, ih]

/-- Inserting under a different key leaves a key's lookup unchanged. -/
theorem Borsh.assocLookup_hashMapInsert_ne {κ ν : Type} [DecidableEq κ]
    {k k₁ : κ} (v : ν) (m : List (κ × ν)) (h : k ≠ k₁) :
    Borsh.assocLookup k (Borsh.hashMapInsert k₁ v m) =
      Borsh.assocLookup k m := by
  induction m with
  | nil => simp [Borsh.hashMapInsert, Borsh.assocLookup, h]
  | cons p ps ih =>
    by_cases h1 : k₁ = p.1
    · subst h1
      simp [Borsh.hashMapInsert, Borsh.assocLookup, h]
    · by_cases h2 : k = p.1 <;>
        simp [Borsh.hashMapInsert, Borsh.assocLookup, h1, h2, ih]

/-- Sorted insertion makes `k` look up to `v`. -/
theorem Borsh.assocLookup_btreeInsert_self {ν : Type}
    (k : Nat) (v : ν) (m : List (Nat × ν)) :
    Borsh.assocLookup k (Borsh.btreeInsert k v m) = some v := by
  induction m with
  | nil => simp [Borsh.btreeInsert, Borsh.assocLookup]
  | cons p ps ih =>
    rcases Nat.lt_trichotomy k p.1 with h | h | h
    · simp [Borsh.btreeInsert, Borsh.assocLookup, h]
    · simp [Borsh.btreeInsert, Borsh.assocLookup, h, Nat.lt_irrefl]
    · have hne : ¬k < p.1 := by omega
      have hne2 : ¬k = p.1 := by omega
      simp [Borsh.btreeInsert, Borsh.assocLookup, hne, hne2, ih]

/-- Sorted insertion under a different key leaves a key's lookup
unchanged. -/
theorem Borsh.assocLookup_btreeInsert_ne {ν : Type}
    {k k₁ : Nat} (v : ν) (m : List (Nat × ν)) (h : k ≠ k₁) :
    Borsh.assocLookup k (Borsh.btreeInsert k₁ v m) =
      Borsh.assocLookup k m := by
  induction m with
  | nil => simp [Borsh.btreeInsert, Borsh.assocLookup, h]
  | cons p ps ih =>
    rcases Nat.lt_trichotomy k₁ p.1 with h1 | h1 | h1
    · have : ¬k = k₁ := h
      simp [Borsh.btreeInsert, Borsh.assocLookup, h1, this]
    · subst h1
      simp [Borsh.btreeInsert, Borsh.assocLookup, Nat.lt_irrefl, h]
    · have hne : ¬k₁ < p.1 := by omega
      have hne2 : ¬k₁ = p.1 := by omega
      by_cases h2 : k = p.1 <;>
        simp [Borsh.btreeInsert, Borsh.assocLookup, hne, hne2, h2, ih]

/-- Folding inserts over a pair list: a key's final lookup is the value
at its last occurrence in the list, falling back to the initial map.
Parametric in the insert operation through its two lookup laws, so it
covers both map flavors. -/
theorem Borsh.assocLookup_foldl_ins {κ ν : Type} [DecidableEq κ]
    {ins : κ → ν → List (κ × ν) → List (κ × ν)}
    (hself : ∀ k v m, Borsh.assocLookup k (ins k v m) = some v)
    (hne : ∀ {k k₁ : κ} (v : ν) (m : List (κ × ν)), k ≠ k₁ →
      Borsh.assocLookup k (ins k₁ v m) = Borsh.assocLookup k m) :
    ∀ (ps : List (κ × ν)) (m : List (κ × ν)) (k : κ),
    Borsh.assocLookup k (ps.foldl (fun acc p => ins p.1 p.2 acc) m) =
      match Borsh.lastVal k ps with
      | some v => some v
      | none => Borsh.assocLookup k m := by
  intro ps
  induction ps with
  | nil => intro m k; simp [Borsh.lastVal]
  | cons p ps ih =>
    intro m k
    rw [List.foldl_cons, ih (ins p.1 p.2 m) k]
    cases hlast : Borsh.lastVal k ps with
    | some v => simp [Borsh.lastVal, hlast]
    | none =>
      by_cases hk : k = p.1
      · subst hk
        simp [Borsh.lastVal, hlast, hself]
      · have : ¬p.1 = k := fun hc => hk hc.symm
        simp [Borsh.lastVal, hlast, hne _ _ hk, this]

/-- Decoding the encoded pair section inserts each pair in encoded
order into the accumulated map, with no duplicate-key check. -/
theorem Borsh.deserializePairs_encode {κ ν : Type}
    {encK : κ → Borsh.Bytes} {dK : Borsh.Bytes → Except Borsh.IoErr (κ × Borsh.Bytes)}
    {encV : ν → Borsh.Bytes} {dV : Borsh.Bytes → Except Borsh.IoErr (ν × Borsh.Bytes)}
    (ins : κ → ν → List (κ × ν) → List (κ × ν))
    (hK : ∀ k rest, dK (encK k ++ rest) = .ok (k, rest))
    (hV : ∀ v rest, dV (encV v ++ rest) = .ok (v, rest)) :
    ∀ (ps : List (κ × ν)) (m : List (κ × ν)) (rest : Borsh.Bytes),
    Borsh.deserializePairs dK dV ins ps.length m
        (Borsh.encPairs encK encV ps ++ rest) =
      .ok (ps.foldl (fun acc p => ins p.1 p.2 acc) m, rest) := by
  intro ps
  induction ps with
  | nil => intro m rest; simp [Borsh.encPairs, Borsh.deserializePairs]
  | cons p ps ih =>
    intro m rest
    have hstream : Borsh.encPairs encK encV (p :: ps) ++ rest =
        encK p.1 ++ (encV p.2 ++ (Borsh.encPairs encK encV ps ++ rest)) := by
      simp [Borsh.encPairs, List.append_assoc]
    rw [List.length_cons, hstream]
    simp [Borsh.deserializePairs, hK, hV, ih, Bind.bind, Except.bind]

/-- C10: both map decoders accept encoded pair sections containing
duplicate keys: decoding succeeds (no duplicate check exists), each
pair is inserted in encoded order so a key's final value is the one at
its last occurrence, and the resulting map can hold fewer entries than
the 4-byte length prefix declared (the concrete duplicate stream with
declared length 2 decodes to a single-entry map). -/
theorem Borsh.c10_map_duplicate_keys :
    (∀ {κ ν : Type} [DecidableEq κ] (encK : κ → Borsh.Bytes)
      (dK : Borsh.Bytes → Except Borsh.IoErr (κ × Borsh.Bytes))
      (encV : ν → Borsh.Bytes)
      (dV : Borsh.Bytes → Except Borsh.IoErr (ν × Borsh.Bytes)),
      (∀ k rest, dK (encK k ++ rest) = .ok (k, rest)) →
      (∀ v rest, dV (encV v ++ rest) = .ok (v, rest)) →
      ∀ (ps : List (κ × ν)) (rest : Borsh.Bytes), ps.length < 2 ^ 32 →
      Borsh.deserializeHashMap Borsh.listRd dK dV
          (Borsh.encodeU32 ps.length ++
            (Borsh.encPairs encK encV ps ++ rest)) =
        .ok (ps.foldl (fun m p => Borsh.hashMapInsert p.1 p.2 m) [], rest)) ∧
    (∀ {κ ν : Type} [DecidableEq κ] (ps : List (κ × ν)) (k : κ),
      Borsh.assocLookup k
          (ps.foldl (fun m p => Borsh.hashMapInsert p.1 p.2 m) []) =
        Borsh.lastVal k ps) ∧
    (∀ {ν : Type} (encK : Nat → Borsh.Bytes)
      (dK : Borsh.Bytes → Except Borsh.IoErr (Nat × Borsh.Bytes))
      (encV : ν → Borsh.Bytes)
      (dV : Borsh.Bytes → Except Borsh.IoErr (ν × Borsh.Bytes)),
      (∀ k rest, dK (encK k ++ rest) = .ok (k, rest)) →
      (∀ v rest, dV (encV v ++ rest) = .ok (v, rest)) →
      ∀ (ps : List (Nat × ν)) (rest : Borsh.Bytes), ps.length < 2 ^ 32 →
      Borsh.deserializeBTreeMap Borsh.listRd dK dV
          (Borsh.encodeU32 ps.length ++
            (Borsh.encPairs encK encV ps ++ rest)) =
        .ok (ps.foldl (fun m p => Borsh.btreeInsert p.1 p.2 m) [], rest)) ∧
    (∀ {ν : Type} (ps : List (Nat × ν)) (k : Nat),
      Borsh.assocLookup k
          (ps.foldl (fun m p => Borsh.btreeInsert p.1 p.2 m) []) =
        Borsh.lastVal k ps) ∧
    (Borsh.deserializeHashMap Borsh.listRd (Borsh.deserializeU8 Borsh.listRd)
        (Borsh.deserializeU8 Borsh.listRd) [2, 0, 0, 0, 1, 10, 1, 20] =
      .ok ([(1, 20)], []) ∧
    Borsh.deserializeBTreeMap Borsh.listRd (Borsh.deserializeU8 Borsh.listRd)
        (Borsh.deserializeU8 Borsh.listRd) [2, 0, 0, 0, 1, 10, 1, 20] =
      .ok ([(1, 20)], [])) := by
  refine ⟨?_, ?_, ?_, ?_, by constructor <;> rfl⟩
  · intro κ ν _ encK dK encV dV hK hV ps rest hlen
    have hu32 : Borsh.deserializeU32 Borsh.listRd
        (Borsh.encodeU32 ps.length ++
          (Borsh.encPairs encK encV ps ++ rest)) =
        .ok (ps.length, Borsh.encPairs encK encV ps ++ rest) :=
      Borsh.deserializeInt_encode _ (by norm_num at hlen ⊢; exact hlen)
    simp [Borsh.deserializeHashMap, hu32, Bind.bind, Except.bind,
      Borsh.deserializePairs_encode Borsh.hashMapInsert hK hV ps [] rest]
  · intro κ ν _ ps k
    rw [Borsh.assocLookup_foldl_ins Borsh.assocLookup_hashMapInsert_self
      (fun v m h => Borsh.assocLookup_hashMapInsert_ne v m h) ps [] k]
    cases Borsh.lastVal k ps <;> simp [Borsh.assocLookup]
  · intro ν encK dK encV dV hK hV ps rest hlen
    have hu32 : Borsh.deserializeU32 Borsh.listRd
        (Borsh.encodeU32 ps.length ++
          (Borsh.encPairs encK encV ps ++ rest)) =
        .ok (ps.length, Borsh.encPairs encK encV ps ++ rest) :=
      Borsh.deserializeInt_encode _ (by norm_num at hlen ⊢; exact hlen)
    simp [Borsh.deserializeBTreeMap, hu32, Bind.bind, Except.bind,
      Borsh.deserializePairs_encode Borsh.btreeInsert hK hV ps [] rest]
  · intro ν ps k
    rw [Borsh.assocLookup_foldl_ins Borsh.assocLookup_btreeInsert_self
      (fun v m h => Borsh.assocLookup_btreeInsert_ne v m h) ps [] k]
    cases Borsh.lastVal k ps <;> simp [Borsh.assocLookup]

/-- Decoding a boolean off a stream that starts with its encoding
returns it: the codec is prefix-correct on every value. -/
theorem Borsh.deserializeBool_encode (b : Bool) (rest : Borsh.Bytes) :
    Borsh.deserializeBool Borsh.listRd (Borsh.encodeBool b ++ rest) =
      .ok (b, rest) := by
  cases b <;>
    simp [Borsh.encodeBool, Borsh.deserializeBool, Borsh.read_exact_cons,
      Except.map]

/-- Witness for C10: the duplicate-key pair list
`[(true, false), (true, true)]` over the boolean codec with declared
length 2 decodes through the hash-map decoder to the single-entry map
where the key holds the last value. -/
theorem Borsh.c10_witness :
    Borsh.deserializeHashMap Borsh.listRd
        (Borsh.deserializeBool Borsh.listRd)
        (Borsh.deserializeBool Borsh.listRd)
        (Borsh.encodeU32 2 ++
          (Borsh.encPairs Borsh.encodeBool Borsh.encodeBool
            [(true, false), (true, true)] ++ [])) =
      .ok ([(true, true)], []) := by
  have h := Borsh.c10_map_duplicate_keys.1 Borsh.encodeBool
    (Borsh.deserializeBool Borsh.listRd) Borsh.encodeBool
    (Borsh.deserializeBool Borsh.listRd)
    Borsh.deserializeBool_encode Borsh.deserializeBool_encode
    [(true, false), (true, true)] [] (by norm_num)
  simpa [Borsh.hashMapInsert] using h

/-- Reading a byte run of known length element-by-element returns it. -/
theorem Borsh.deserializeElems_bytes :
    ∀ (bs rest : Borsh.Bytes),
    Borsh.deserializeElems (Borsh.deserializeU8 Borsh.listRd) bs.length
        (bs ++ rest) = .ok (bs, rest) := by
  intro bs
  induction bs with
  | nil => intro rest; simp [Borsh.deserializeElems]
  | cons b bs ih =>
    intro rest
    have hu8 : Borsh.deserializeU8 Borsh.listRd (b :: (bs ++ rest)) =
        .ok (b, bs ++ rest) := by
      simp [Borsh.deserializeU8, Borsh.deserializeInt, Borsh.read_exact_cons,
        Except.map, Borsh.fromLe]
    simpa [Borsh.deserializeElems, hu8, Bind.bind, Except.bind] using
      by rw [ih rest]

/-- Decoding a string off a stream that starts with its encoding
returns it, provided the byte length fits the prefix and the bytes are
valid UTF-8 (true of every Rust `String`). -/
theorem Borsh.deserializeString_encode (s rest : Borsh.Bytes)
    (hlen : s.length < 2 ^ 32) (hval : Borsh.isValidUtf8 s = true) :
    Borsh.deserializeString Borsh.listRd (Borsh.encodeString s ++ rest) =
      .ok (s, rest) := by
  have hu32 : Borsh.deserializeU32 Borsh.listRd
      (Borsh.leBytes 4 s.length ++ (s ++ rest)) = .ok (s.length, s ++ rest) :=
    Borsh.deserializeInt_encode _ (by norm_num at hlen ⊢; exact hlen)
  rw [Borsh.encodeString, Borsh.encodeU32, List.append_assoc]
  simp [Borsh.deserializeString, hu32, Borsh.deserializeElems_bytes, hval,
    Bind.bind, Except.bind]

/-- Decoding a run of elements off the concatenation of their encodings
returns them, given a prefix-correct element codec. -/
theorem Borsh.deserializeElems_encode {α : Type} {encT : α → Borsh.Bytes}
    {dT : Borsh.Bytes → Except Borsh.IoErr (α × Borsh.Bytes)} :
    ∀ (xs : List α),
    (∀ x ∈ xs, ∀ rest, dT (encT x ++ rest) = .ok (x, rest)) →
    ∀ rest : Borsh.Bytes,
    Borsh.deserializeElems dT xs.length ((xs.map encT).flatten ++ rest) =
      .ok (xs, rest) := by
  intro xs
  induction xs with
  | nil => intro _ rest; simp [Borsh.deserializeElems]
  | cons x xs ih =>
    intro h rest
    have hx := h x (List.mem_cons_self x xs) ((xs.map encT).flatten ++ rest)
    have hxs := ih (fun y hy => h y (List.mem_cons_of_mem x hy)) rest
    simp only [List.map_cons, List.flatten_cons, List.append_assoc,
      List.length_cons, Borsh.deserializeElems, Bind.bind, Except.bind, hx,
      hxs]

/-- Decoding a dynamic sequence off a stream that starts with its
encoding returns it (non-zero-size element path). -/
theorem Borsh.deserializeVec_encode {α : Type} {encT : α → Borsh.Bytes}
    {dT : Borsh.Bytes → Except Borsh.IoErr (α × Borsh.Bytes)}
    (xs : List α)
    (hT : ∀ x ∈ xs, ∀ rest, dT (encT x ++ rest) = .ok (x, rest))
    (rest : Borsh.Bytes) (hlen : xs.length < 2 ^ 32) :
    Borsh.deserializeVec Borsh.listRd dT false
        (Borsh.encodeVec encT xs ++ rest) = .ok (xs, rest) := by
  have hu32 : Borsh.deserializeU32 Borsh.listRd
      (Borsh.leBytes 4 xs.length ++ ((xs.map encT).flatten ++ rest)) =
      .ok (xs.length, (xs.map encT).flatten ++ rest) :=
    Borsh.deserializeInt_encode _ (by norm_num at hlen ⊢; exact hlen)
  rw [Borsh.encodeVec, Borsh.encodeU32, List.append_assoc]
  simp [Borsh.deserializeVec, hu32, Borsh.deserializeElems_encode xs hT rest,
    Bind.bind, Except.bind]

/-- The array element loop decodes the concatenation of the element
encodings back to the elements, at any index offset. -/
theorem Borsh.deserializeArrayAux_encode {α : Type} {encT : α → Borsh.Bytes}
    {dT : Borsh.Bytes → Except Borsh.IoErr (α × Borsh.Bytes)} :
    ∀ (xs : List α),
    (∀ x ∈ xs, ∀ rest, dT (encT x ++ rest) = .ok (x, rest)) →
    ∀ (j : Nat) (rest : Borsh.Bytes),
    Borsh.deserializeArrayAux dT j xs.length
        ((xs.map encT).flatten ++ rest) = .ok (xs, rest) := by
  intro xs
  induction xs with
  | nil => intro _ j rest; simp [Borsh.deserializeArrayAux]
  | cons x xs ih =>
    intro h j rest
    have hx := h x (List.mem_cons_self x xs) ((xs.map encT).flatten ++ rest)
    have hxs := ih (fun y hy => h y (List.mem_cons_of_mem x hy)) (j + 1) rest
    simp only [List.map_cons, List.flatten_cons, List.append_assoc,
      List.length_cons, Borsh.deserializeArrayAux, hx, hxs, Except.map]

/-- Option round-trips through its flag-byte encoding, given a
prefix-correct payload codec. -/
theorem Borsh.deserializeOption_encode {α : Type} {encT : α → Borsh.Bytes}
    {dT : Borsh.Bytes → Except Borsh.IoErr (α × Borsh.Bytes)}
    (hT : ∀ x rest, dT (encT x ++ rest) = .ok (x, rest))
    (o : Option α) (rest : Borsh.Bytes) :
    Borsh.deserializeOption Borsh.listRd dT
        (Borsh.encodeOption encT o ++ rest) = .ok (o, rest) := by
  cases o with
  | none =>
    simp [Borsh.encodeOption, Borsh.deserializeOption, Borsh.read_exact_cons,
      Bind.bind, Except.bind]
  | some x =>
    simp [Borsh.encodeOption, Borsh.deserializeOption, Borsh.read_exact_cons,
      Bind.bind, Except.bind, hT x rest, Except.map]

/-- Result round-trips through its flag-byte encoding, given
prefix-correct payload codecs. -/
theorem Borsh.deserializeResult_encode {α β : Type}
    {encOk : α → Borsh.Bytes}
    {dOk : Borsh.Bytes → Except Borsh.IoErr (α × Borsh.Bytes)}
    {encErr : β → Borsh.Bytes}
    {dErr : Borsh.Bytes → Except Borsh.IoErr (β × Borsh.Bytes)}
    (hOk : ∀ x rest, dOk (encOk x ++ rest) = .ok (x, rest))
    (hErr : ∀ x rest, dErr (encErr x ++ rest) = .ok (x, rest))
    (r : α ⊕ β) (rest : Borsh.Bytes) :
    Borsh.deserializeResult Borsh.listRd dOk dErr
        (Borsh.encodeResult encOk encErr r ++ rest) = .ok (r, rest) := by
  cases r with
  | inl x =>
    simp [Borsh.encodeResult, Borsh.deserializeResult, Borsh.read_exact_cons,
      Bind.bind, Except.bind, hOk x rest, Except.map]
  | inr x =>
    simp [Borsh.encodeResult, Borsh.deserializeResult, Borsh.read_exact_cons,
      Bind.bind, Except.bind, hErr x rest, Except.map]

/-- A non-NaN float bit pattern round-trips through its little-endian
byte encoding. -/
theorem Borsh.deserializeF32_encode (bits : Nat) (rest : Borsh.Bytes)
    (hfit : bits < 2 ^ 32) (hnan : Borsh.isNan32 bits = false) :
    Borsh.deserializeF32 Borsh.listRd (Borsh.encodeF32 bits ++ rest) =
      .ok (bits, rest) := by
  have hread := @Borsh.read_exact_append (Borsh.leBytes 4 bits) rest 4
    (Borsh.leBytes_length 4 bits)
  simp [Borsh.deserializeF32, Borsh.encodeF32, hread, Bind.bind, Except.bind,
    Borsh.fromLe_leBytes (w := 4) (by norm_num at hfit ⊢; exact hfit), hnan]

/-- A non-NaN double bit pattern round-trips through its little-endian
byte encoding. -/
theorem Borsh.deserializeF64_encode (bits : Nat) (rest : Borsh.Bytes)
    (hfit : bits < 2 ^ 64) (hnan : Borsh.isNan64 bits = false) :
    Borsh.deserializeF64 Borsh.listRd (Borsh.encodeF64 bits ++ rest) =
      .ok (bits, rest) := by
  have hread := @Borsh.read_exact_append (Borsh.leBytes 8 bits) rest 8
    (Borsh.leBytes_length 8 bits)
  simp [Borsh.deserializeF64, Borsh.encodeF64, hread, Bind.bind, Except.bind,
    Borsh.fromLe_leBytes (w := 8) (by norm_num at hfit ⊢; exact hfit), hnan]

/-- A byte buffer round-trips through its length-prefixed encoding. -/
theorem Borsh.deserializeBoxBytes_encode (bs rest : Borsh.Bytes)
    (hlen : bs.length < 2 ^ 32) :
    Borsh.deserializeBoxBytes Borsh.listRd
        (Borsh.encodeBoxBytes bs ++ rest) = .ok (bs, rest) := by
  have hu32 : Borsh.deserializeU32 Borsh.listRd
      (Borsh.leBytes 4 bs.length ++ (bs ++ rest)) =
      .ok (bs.length, bs ++ rest) :=
    Borsh.deserializeInt_encode _ (by norm_num at hlen ⊢; exact hlen)
  rw [Borsh.encodeBoxBytes, Borsh.encodeU32, List.append_assoc]
  simp [Borsh.deserializeBoxBytes, hu32, Borsh.deserializeElems_bytes,
    Bind.bind, Except.bind]

/-- A fixed-size array round-trips through the concatenation of its
element encodings, given a prefix-correct element codec. -/
theorem Borsh.deserializeArray_encode {α : Type} {encT : α → Borsh.Bytes}
    {dT : Borsh.Bytes → Except Borsh.IoErr (α × Borsh.Bytes)}
    (xs : List α)
    (hT : ∀ x ∈ xs, ∀ rest, dT (encT x ++ rest) = .ok (x, rest))
    (rest : Borsh.Bytes) :
    Borsh.deserializeArray dT xs.length (Borsh.encodeArray encT xs ++ rest) =
      .ok (xs, rest) :=
  Borsh.deserializeArrayAux_encode xs hT 0 rest

/-- A pair round-trips through its slot-concatenation encoding. -/
theorem Borsh.deserializeTuple2_encode {α β : Type}
    {enc1 : α → Borsh.Bytes}
    {d1 : Borsh.Bytes → Except Borsh.IoErr (α × Borsh.Bytes)}
    {enc2 : β → Borsh.Bytes}
    {d2 : Borsh.Bytes → Except Borsh.IoErr (β × Borsh.Bytes)}
    (h1 : ∀ x rest, d1 (enc1 x ++ rest) = .ok (x, rest))
    (h2 : ∀ x rest, d2 (enc2 x ++ rest) = .ok (x, rest))
    (p : α × β) (rest : Borsh.Bytes) :
    Borsh.deserializeTuple2 d1 d2 (Borsh.encodeTuple2 enc1 enc2 p ++ rest) =
      .ok (p, rest) := by
  rw [Borsh.encodeTuple2, List.append_assoc]
  simp [Borsh.deserializeTuple2, h1 p.1, h2 p.2, Bind.bind, Except.bind]

/-- Reading a byte decoder off a nonempty stream yields its head. -/
theorem Borsh.deserializeU8_cons (b : Nat) (rest : Borsh.Bytes) :
    Borsh.deserializeU8 Borsh.listRd (b :: rest) = .ok (b, rest) := by
  simp [Borsh.deserializeU8, Borsh.deserializeInt, Borsh.read_exact_cons,
    Except.map, Borsh.fromLe]

/-- Inserting a key absent from the map appends the pair at the end. -/
theorem Borsh.hashMapInsert_append {κ ν : Type} [DecidableEq κ] {k : κ}
    (v : ν) : ∀ (m : List (κ × ν)), (∀ q ∈ m, q.1 ≠ k) →
    Borsh.hashMapInsert k v m = m ++ [(k, v)] := by
  intro m
  induction m with
  | nil => intro _; rfl
  | cons q m ih =>
    intro h
    have hq : ¬k = q.1 := fun hc => h q (List.mem_cons_self q m) hc.symm
    simp [Borsh.hashMapInsert, hq,
      ih fun r hr => h r (List.mem_cons_of_mem q hr)]

/-- Hash-insert folding of pairs with pairwise-distinct keys, all fresh
for the initial map, appends the pairs in order. -/
theorem Borsh.foldl_hashMapInsert {κ ν : Type} [DecidableEq κ] :
    ∀ (ps m : List (κ × ν)), (∀ p ∈ ps, ∀ q ∈ m, q.1 ≠ p.1) →
    List.Pairwise (fun p q => p.1 ≠ q.1) ps →
    ps.foldl (fun acc p => Borsh.hashMapInsert p.1 p.2 acc) m = m ++ ps := by
  intro ps
  induction ps with
  | nil => intro m _ _; simp
  | cons p ps ih =>
    intro m hfresh hpw
    obtain ⟨hhead, htail⟩ := List.pairwise_cons.mp hpw
    rw [List.foldl_cons,
      Borsh.hashMapInsert_append p.2 m
        (fun q hq => hfresh p (List.mem_cons_self p ps) q hq),
      ih (m ++ [p]) ?_ htail]
    · simp
    · intro r hr q hq
      rcases List.mem_append.mp hq with hq | hq
      · exact hfresh r (List.mem_cons_of_mem p hr) q hq
      · have hqp : q = p := by simpa using hq
        subst hqp
        exact hhead r hr

/-- Sorted insertion of a key above every key of the map appends the
pair at the end. -/
theorem Borsh.btreeInsert_append {ν : Type} {k : Nat} (v : ν) :
    ∀ (m : List (Nat × ν)), (∀ q ∈ m, q.1 < k) →
    Borsh.btreeInsert k v m = m ++ [(k, v)] := by
  intro m
  induction m with
  | nil => intro _; rfl
  | cons q m ih =>
    intro h
    have hq := h q (List.mem_cons_self q m)
    haveI h1 : ¬k < q.1 := by omega
    have h2 : ¬k = q.1 := by omega
    simp [Borsh.btreeInsert, h1, h2,
      ih fun r hr => h r (List.mem_cons_of_mem q hr)]

/-- Sorted-insert folding of strictly key-sorted pairs, all above the
keys of the initial map, appends the pairs in order. -/
theorem Borsh.foldl_btreeInsert {ν : Type} :
    ∀ (ps m : List (Nat × ν)), (∀ p ∈ ps, ∀ q ∈ m, q.1 < p.1) →
    List.Pairwise (fun p q => p.1 < q.1) ps →
    ps.foldl (fun acc p => Borsh.btreeInsert p.1 p.2 acc) m = m ++ ps := by
  intro ps
  induction ps with
  | nil => intro m _ _; simp
  | cons p ps ih =>
    intro m hfresh hpw
    obtain ⟨hhead, htail⟩ := List.pairwise_cons.mp hpw
    rw [List.foldl_cons,
      Borsh.btreeInsert_append p.2 m
        (fun q hq => hfresh p (List.mem_cons_self p ps) q hq),
      ih (m ++ [p]) ?_ htail]
    · simp
    · intro r hr q hq
      rcases List.mem_append.mp hq with hq | hq
      · exact hfresh r (List.mem_cons_of_mem p hr) q hq
      · have hqp : q = p := by simpa using hq
        subst hqp
        exact hhead r hr

/-- Inserting an element absent from the set appends it. -/
theorem Borsh.hashSetInsert_append {α : Type} [DecidableEq α] {x : α}
    (m : List α) (h : x ∉ m) : Borsh.hashSetInsert x m = m ++ [x] := by
  simp [Borsh.hashSetInsert, h]

/-- Hash-insert folding of distinct elements, all fresh for the initial
set, appends them in order. -/
theorem Borsh.foldl_hashSetInsert {α : Type} [DecidableEq α] :
    ∀ (xs m : List α), (∀ x ∈ xs, x ∉ m) → xs.Nodup →
    xs.foldl (fun acc x => Borsh.hashSetInsert x acc) m = m ++ xs := by
  intro xs
  induction xs with
  | nil => intro m _ _; simp
  | cons x xs ih =>
    intro m hfresh hnd
    obtain ⟨hhead, htail⟩ := List.pairwise_cons.mp hnd
    rw [List.foldl_cons,
      Borsh.hashSetInsert_append m (hfresh x (List.mem_cons_self x xs)),
      ih (m ++ [x]) ?_ htail]
    · simp
    · intro y hy hmem
      rcases List.mem_append.mp hmem with h | h
      · exact hfresh y (List.mem_cons_of_mem x hy) h
      · have hyx : y = x := by simpa using h
        exact hhead y hy hyx.symm

/-- Sorted insertion of an element above every element of the set
appends it. -/
theorem Borsh.btreeSetInsert_append {x : Nat} :
    ∀ (m : List Nat), (∀ y ∈ m, y < x) →
    Borsh.btreeSetInsert x m = m ++ [x] := by
  intro m
  induction m with
  | nil => intro _; rfl
  | cons y m ih =>
    intro h
    have hy := h y (List.mem_cons_self y m)
    have h1 : ¬x < y := by omega
    have h2 : ¬x = y := by omega
    simp [Borsh.btreeSetInsert, h1, h2,
      ih fun z hz => h z (List.mem_cons_of_mem y hz)]

/-- Sorted-insert folding of a strictly sorted element list, all above
the initial set, appends the elements in order. -/
theorem Borsh.foldl_btreeSetInsert :
    ∀ (xs m : List Nat), (∀ x ∈ xs, ∀ y ∈ m, y < x) →
    List.Pairwise (fun a b => a < b) xs →
    xs.foldl (fun acc x => Borsh.btreeSetInsert x acc) m = m ++ xs := by
  intro xs
  induction xs with
  | nil => intro m _ _; simp
  | cons x xs ih =>
    intro m hfresh hpw
    obtain ⟨hhead, htail⟩ := List.pairwise_cons.mp hpw
    rw [List.foldl_cons,
      Borsh.btreeSetInsert_append m
        (fun y hy => hfresh x (List.mem_cons_self x xs) y hy),
      ih (m ++ [x]) ?_ htail]
    · simp
    · intro z hz y hy
      rcases List.mem_append.mp hy with h | h
      · exact hfresh z (List.mem_cons_of_mem x hz) y h
      · have hyx : y = x := by simpa using h
        subst hyx
        exact hhead z hz

/-- A hash map round-trips through its length-prefixed pair encoding
when the encoded pairs have pairwise-distinct keys (true of the
contents of any real hash map). -/
theorem Borsh.deserializeHashMap_encode {κ ν : Type} [DecidableEq κ]
    {encK : κ → Borsh.Bytes}
    {dK : Borsh.Bytes → Except Borsh.IoErr (κ × Borsh.Bytes)}
    {encV : ν → Borsh.Bytes}
    {dV : Borsh.Bytes → Except Borsh.IoErr (ν × Borsh.Bytes)}
    (hK : ∀ k rest, dK (encK k ++ rest) = .ok (k, rest))
    (hV : ∀ v rest, dV (encV v ++ rest) = .ok (v, rest))
    (ps : List (κ × ν)) (rest : Borsh.Bytes) (hlen : ps.length < 2 ^ 32)
    (hpw : List.Pairwise (fun p q => p.1 ≠ q.1) ps) :
    Borsh.deserializeHashMap Borsh.listRd dK dV
        (Borsh.encodeU32 ps.length ++
          (Borsh.encPairs encK encV ps ++ rest)) = .ok (ps, rest) := by
  have hu32 : Borsh.deserializeU32 Borsh.listRd
      (Borsh.encodeU32 ps.length ++ (Borsh.encPairs encK encV ps ++ rest)) =
      .ok (ps.length, Borsh.encPairs encK encV ps ++ rest) :=
    Borsh.deserializeInt_encode _ (by norm_num at hlen ⊢; exact hlen)
  have hpairs :=
    Borsh.deserializePairs_encode Borsh.hashMapInsert hK hV ps [] rest
  have hfold := Borsh.foldl_hashMapInsert ps [] (by simp) hpw
  simp only [List.nil_append] at hfold
  simp [Borsh.deserializeHashMap, hu32, hpairs, hfold, Bind.bind,
    Except.bind]

/-- An ordered map round-trips through its length-prefixed pair
encoding when the encoded pairs are strictly sorted by key (the
iteration order of any real ordered map). -/
theorem Borsh.deserializeBTreeMap_encode {ν : Type}
    {encK : Nat → Borsh.Bytes}
    {dK : Borsh.Bytes → Except Borsh.IoErr (Nat × Borsh.Bytes)}
    {encV : ν → Borsh.Bytes}
    {dV : Borsh.Bytes → Except Borsh.IoErr (ν × Borsh.Bytes)}
    (hK : ∀ k rest, dK (encK k ++ rest) = .ok (k, rest))
    (hV : ∀ v rest, dV (encV v ++ rest) = .ok (v, rest))
    (ps : List (Nat × ν)) (rest : Borsh.Bytes) (hlen : ps.length < 2 ^ 32)
    (hpw : List.Pairwise (fun p q => p.1 < q.1) ps) :
    Borsh.deserializeBTreeMap Borsh.listRd dK dV
        (Borsh.encodeU32 ps.length ++
          (Borsh.encPairs encK encV ps ++ rest)) = .ok (ps, rest) := by
  have hu32 : Borsh.deserializeU32 Borsh.listRd
      (Borsh.encodeU32 ps.length ++ (Borsh.encPairs encK encV ps ++ rest)) =
      .ok (ps.length, Borsh.encPairs encK encV ps ++ rest) :=
    Borsh.deserializeInt_encode _ (by norm_num at hlen ⊢; exact hlen)
  have hpairs :=
    Borsh.deserializePairs_encode Borsh.btreeInsert hK hV ps [] rest
  have hfold := Borsh.foldl_btreeInsert ps [] (by simp) hpw
  simp only [List.nil_append] at hfold
  simp [Borsh.deserializeBTreeMap, hu32, hpairs, hfold, Bind.bind,
    Except.bind]

/-- A hash set round-trips through its length-prefixed element encoding
when the encoded elements are distinct (true of the contents of any
real hash set). -/
theorem Borsh.deserializeHashSet_encode {α : Type} [DecidableEq α]
    {encT : α → Borsh.Bytes}
    {dT : Borsh.Bytes → Except Borsh.IoErr (α × Borsh.Bytes)}
    (xs : List α)
    (hT : ∀ x ∈ xs, ∀ rest, dT (encT x ++ rest) = .ok (x, rest))
    (rest : Borsh.Bytes) (hlen : xs.length < 2 ^ 32) (hnd : xs.Nodup) :
    Borsh.deserializeHashSet Borsh.listRd dT false
        (Borsh.encodeVec encT xs ++ rest) = .ok (xs, rest) := by
  have hvec := Borsh.deserializeVec_encode xs hT rest hlen
  have hfold := Borsh.foldl_hashSetInsert xs [] (by simp) hnd
  simp only [List.nil_append] at hfold
  simp [Borsh.deserializeHashSet, hvec, Except.map, hfold]

/-- An ordered set round-trips through its length-prefixed element
encoding when the encoded elements are strictly sorted (the iteration
order of any real ordered set). -/
theorem Borsh.deserializeBTreeSet_encode
    {encT : Nat → Borsh.Bytes}
    {dT : Borsh.Bytes → Except Borsh.IoErr (Nat × Borsh.Bytes)}
    (xs : List Nat)
    (hT : ∀ x ∈ xs, ∀ rest, dT (encT x ++ rest) = .ok (x, rest))
    (rest : Borsh.Bytes) (hlen : xs.length < 2 ^ 32)
    (hpw : List.Pairwise (fun a b => a < b) xs) :
    Borsh.deserializeBTreeSet Borsh.listRd dT false
        (Borsh.encodeVec encT xs ++ rest) = .ok (xs, rest) := by
  have hvec := Borsh.deserializeVec_encode xs hT rest hlen
  have hfold := Borsh.foldl_btreeSetInsert xs [] (by simp) hpw
  simp only [List.nil_append] at hfold
  simp [Borsh.deserializeBTreeSet, hvec, Except.map, hfold]

/-- An IPv4 socket address round-trips through its encoding. -/
theorem Borsh.deserializeSocketAddrV4_encode (a : Borsh.SockV4)
    (rest : Borsh.Bytes) (hip : a.ip.length = 4) (hport : a.port < 2 ^ 16) :
    Borsh.deserializeSocketAddrV4 Borsh.listRd
        (Borsh.encodeSocketAddrV4 a ++ rest) = .ok (a, rest) := by
  have hread := @Borsh.read_exact_append a.ip
    (Borsh.leBytes 2 a.port ++ rest) 4 hip
  have hu16 : Borsh.deserializeU16 Borsh.listRd
      (Borsh.leBytes 2 a.port ++ rest) = .ok (a.port, rest) :=
    Borsh.deserializeInt_encode rest (by norm_num at hport ⊢; exact hport)
  rw [Borsh.encodeSocketAddrV4, List.append_assoc]
  simp [Borsh.deserializeSocketAddrV4, hread, hu16, Bind.bind, Except.bind]

/-- An IPv6 socket address decodes from its own encoding to the value
with flow-info and scope-id reset to zero (they are not on the wire). -/
theorem Borsh.deserializeSocketAddrV6_encode (a : Borsh.SockV6)
    (rest : Borsh.Bytes) (hip : a.ip.length = 16)
    (hport : a.port < 2 ^ 16) :
    Borsh.deserializeSocketAddrV6 Borsh.listRd
        (Borsh.encodeSocketAddrV6 a ++ rest) =
      .ok (⟨a.ip, a.port, 0, 0⟩, rest) := by
  have hread := @Borsh.read_exact_append a.ip
    (Borsh.leBytes 2 a.port ++ rest) 16 hip
  have hu16 : Borsh.deserializeU16 Borsh.listRd
      (Borsh.leBytes 2 a.port ++ rest) = .ok (a.port, rest) :=
    Borsh.deserializeInt_encode rest (by norm_num at hport ⊢; exact hport)
  rw [Borsh.encodeSocketAddrV6, List.append_assoc]
  simp [Borsh.deserializeSocketAddrV6, hread, hu16, Bind.bind, Except.bind]

/-- A tagged IPv4 socket address round-trips through the tagged
encoding. -/
theorem Borsh.deserializeSocketAddr_encode_v4 (a : Borsh.SockV4)
    (rest : Borsh.Bytes) (hip : a.ip.length = 4) (hport : a.port < 2 ^ 16) :
    Borsh.deserializeSocketAddr Borsh.listRd
        (Borsh.encodeSocketAddr (.v4 a) ++ rest) = .ok (.v4 a, rest) := by
  have hu8 := Borsh.deserializeU8_cons 0 (Borsh.encodeSocketAddrV4 a ++ rest)
  simp [Borsh.deserializeSocketAddr, Borsh.encodeSocketAddr, hu8, Bind.bind,
    Except.bind, Borsh.deserializeSocketAddrV4_encode a rest hip hport]

/-- A tagged IPv6 socket address decodes from the tagged encoding to
the value with flow-info and scope-id reset to zero. -/
theorem Borsh.deserializeSocketAddr_encode_v6 (a : Borsh.SockV6)
    (rest : Borsh.Bytes) (hip : a.ip.length = 16)
    (hport : a.port < 2 ^ 16) :
    Borsh.deserializeSocketAddr Borsh.listRd
        (Borsh.encodeSocketAddr (.v6 a) ++ rest) =
      .ok (.v6 ⟨a.ip, a.port, 0, 0⟩, rest) := by
  have hu8 := Borsh.deserializeU8_cons 1 (Borsh.encodeSocketAddrV6 a ++ rest)
  simp [Borsh.deserializeSocketAddr, Borsh.encodeSocketAddr, hu8, Bind.bind,
    Except.bind, Borsh.deserializeSocketAddrV6_encode a rest hip hport]

/-- A 19-slot tuple round-trips through its concatenated encoding,
given prefix-correct slot codecs. -/
theorem Borsh.deserializeTuple19_encode {A1 A2 A3 A4 A5 A6 A7 A8 A9 A10 A11 A12 A13 A14 A15 A16 A17 A18 A19 : Type}
    {e1 : A1 → Borsh.Bytes} {d1 : Borsh.Bytes → Except Borsh.IoErr (A1 × Borsh.Bytes)}
    {e2 : A2 → Borsh.Bytes} {d2 : Borsh.Bytes → Except Borsh.IoErr (A2 × Borsh.Bytes)}
    {e3 : A3 → Borsh.Bytes} {d3 : Borsh.Bytes → Except Borsh.IoErr (A3 × Borsh.Bytes)}
    {e4 : A4 → Borsh.Bytes} {d4 : Borsh.Bytes → Except Borsh.IoErr (A4 × Borsh.Bytes)}
    {e5 : A5 → Borsh.Bytes} {d5 : Borsh.Bytes → Except Borsh.IoErr (A5 × Borsh.Bytes)}
    {e6 : A6 → Borsh.Bytes} {d6 : Borsh.Bytes → Except Borsh.IoErr (A6 × Borsh.Bytes)}
    {e7 : A7 → Borsh.Bytes} {d7 : Borsh.Bytes → Except Borsh.IoErr (A7 × Borsh.Bytes)}
    {e8 : A8 → Borsh.Bytes} {d8 : Borsh.Bytes → Except Borsh.IoErr (A8 × Borsh.Bytes)}
    {e9 : A9 → Borsh.Bytes} {d9 : Borsh.Bytes → Except Borsh.IoErr (A9 × Borsh.Bytes)}
    {e10 : A10 → Borsh.Bytes} {d10 : Borsh.Bytes → Except Borsh.IoErr (A10 × Borsh.Bytes)}
    {e11 : A11 → Borsh.Bytes} {d11 : Borsh.Bytes → Except Borsh.IoErr (A11 × Borsh.Bytes)}
    {e12 : A12 → Borsh.Bytes} {d12 : Borsh.Bytes → Except Borsh.IoErr (A12 × Borsh.Bytes)}
    {e13 : A13 → Borsh.Bytes} {d13 : Borsh.Bytes → Except Borsh.IoErr (A13 × Borsh.Bytes)}
    {e14 : A14 → Borsh.Bytes} {d14 : Borsh.Bytes → Except Borsh.IoErr (A14 × Borsh.Bytes)}
    {e15 : A15 → Borsh.Bytes} {d15 : Borsh.Bytes → Except Borsh.IoErr (A15 × Borsh.Bytes)}
    {e16 : A16 → Borsh.Bytes} {d16 : Borsh.Bytes → Except Borsh.IoErr (A16 × Borsh.Bytes)}
    {e17 : A17 → Borsh.Bytes} {d17 : Borsh.Bytes → Except Borsh.IoErr (A17 × Borsh.Bytes)}
    {e18 : A18 → Borsh.Bytes} {d18 : Borsh.Bytes → Except Borsh.IoErr (A18 × Borsh.Bytes)}
    {e19 : A19 → Borsh.Bytes} {d19 : Borsh.Bytes → Except Borsh.IoErr (A19 × Borsh.Bytes)}
    (h1 : ∀ x rest, d1 (e1 x ++ rest) = .ok (x, rest))
    (h2 : ∀ x rest, d2 (e2 x ++ rest) = .ok (x, rest))
    (h3 : ∀ x rest, d3 (e3 x ++ rest) = .ok (x, rest))
    (h4 : ∀ x rest, d4 (e4 x ++ rest) = .ok (x, rest))
    (h5 : ∀ x rest, d5 (e5 x ++ rest) = .ok (x, rest))
    (h6 : ∀ x rest, d6 (e6 x ++ rest) = .ok (x, rest))
    (h7 : ∀ x rest, d7 (e7 x ++ rest) = .ok (x, rest))
    (h8 : ∀ x rest, d8 (e8 x ++ rest) = .ok (x, rest))
    (h9 : ∀ x rest, d9 (e9 x ++ rest) = .ok (x, rest))
    (h10 : ∀ x rest, d10 (e10 x ++ rest) = .ok (x, rest))
    (h11 : ∀ x rest, d11 (e11 x ++ rest) = .ok (x, rest))
    (h12 : ∀ x rest, d12 (e12 x ++ rest) = .ok (x, rest))
    (h13 : ∀ x rest, d13 (e13 x ++ rest) = .ok (x, rest))
    (h14 : ∀ x rest, d14 (e14 x ++ rest) = .ok (x, rest))
    (h15 : ∀ x rest, d15 (e15 x ++ rest) = .ok (x, rest))
    (h16 : ∀ x rest, d16 (e16 x ++ rest) = .ok (x, rest))
    (h17 : ∀ x rest, d17 (e17 x ++ rest) = .ok (x, rest))
    (h18 : ∀ x rest, d18 (e18 x ++ rest) = .ok (x, rest))
    (h19 : ∀ x rest, d19 (e19 x ++ rest) = .ok (x, rest))
    (p : A1 × A2 × A3 × A4 × A5 × A6 × A7 × A8 × A9 × A10 × A11 × A12 × A13 × A14 × A15 × A16 × A17 × A18 × A19) (rest : Borsh.Bytes) :
    Borsh.deserializeTuple19 d1 d2 d3 d4 d5 d6 d7 d8 d9 d10 d11 d12 d13 d14 d15 d16 d17 d18 d19
        (Borsh.encodeTuple19 e1 e2 e3 e4 e5 e6 e7 e8 e9 e10 e11 e12 e13 e14 e15 e16 e17 e18 e19 p ++ rest) = .ok (p, rest) := by
  obtain ⟨x1, x2, x3, x4, x5, x6, x7, x8, x9, x10, x11, x12, x13, x14, x15, x16, x17, x18, x19⟩ := p
  simp [Borsh.encodeTuple19, Borsh.deserializeTuple19, List.append_assoc,
    h1, h2, h3, h4, h5, h6, h7, h8, h9, h10, h11, h12, h13, h14, h15, h16, h17, h18, h19, Bind.bind, Except.bind]


/-- C1 counterexample: the literal universal round trip is false — an
IPv6 socket address with nonzero flow-info strictly decodes from its
own valid encoding to a different value, because flow-info and
scope-id are not represented on the wire and are reconstructed as zero
on decode. -/
theorem Borsh.c1_counterexample :
    Borsh.try_from_slice (Borsh.deserializeSocketAddr Borsh.listRd)
        (Borsh.encodeSocketAddr (.v6 Borsh.sockV6Flow)) =
      .ok (.v6 ⟨List.replicate 16 0, 0, 0, 0⟩) ∧
    Borsh.SockAddr.v6 ⟨List.replicate 16 0, 0, 0, 0⟩ ≠
      .v6 Borsh.sockV6Flow :=
  ⟨rfl, by decide⟩

/-- C1 (amended): decoding the bytes produced by encoding a value `v`
(not involving NaN) off the front of any stream returns `v` and the
remaining stream for every supported primitive and container type
except `SocketAddrV6`: unit, fixed-width integers of every byte width
(covering `u8`–`u128` and the signed widths as bit patterns), `bool`,
non-NaN `f32`/`f64`, `Option`, `Result`, `String`, `Vec`, `Box<[u8]>`,
fixed-size arrays, tuples at arity 2 and at the maximum supported
arity 19, hash maps and hash sets (whose contents have distinct keys
or elements, as in any real hash container), ordered maps and sets
(whose contents are strictly key-sorted, their iteration order), and
tagged IPv4 socket addresses — given prefix-correct component codecs
where the container is generic. A `SocketAddrV6` (tagged or not)
decodes to the value with flow-info and scope-id reset to zero, so its
round trip holds exactly when both are zero. In particular the generic
record `A<String, u64, String> { x: ["foo", "bar"], y: "world",
b: B::X { f: [1, 2] } }` of `test_generic_struct`, encoded to a buffer
and strictly decoded via `try_from_slice`, returns a structurally
equal value. -/
theorem Borsh.c1_roundtrip :
    (∀ s : Borsh.Bytes, Borsh.deserializeUnit Borsh.listRd s = .ok ((), s)) ∧
    (∀ (w n : Nat) (rest : Borsh.Bytes), n < 2 ^ (8 * w) →
      Borsh.deserializeInt Borsh.listRd w (Borsh.leBytes w n ++ rest) =
        .ok (n, rest)) ∧
    (∀ (b : Bool) (rest : Borsh.Bytes),
      Borsh.deserializeBool Borsh.listRd (Borsh.encodeBool b ++ rest) =
        .ok (b, rest)) ∧
    (∀ (bits : Nat) (rest : Borsh.Bytes), bits < 2 ^ 32 →
      Borsh.isNan32 bits = false →
      Borsh.deserializeF32 Borsh.listRd (Borsh.encodeF32 bits ++ rest) =
        .ok (bits, rest)) ∧
    (∀ (bits : Nat) (rest : Borsh.Bytes), bits < 2 ^ 64 →
      Borsh.isNan64 bits = false →
      Borsh.deserializeF64 Borsh.listRd (Borsh.encodeF64 bits ++ rest) =
        .ok (bits, rest)) ∧
    (∀ {α : Type} (encT : α → Borsh.Bytes)
      (dT : Borsh.Bytes → Except Borsh.IoErr (α × Borsh.Bytes)),
      (∀ x rest, dT (encT x ++ rest) = .ok (x, rest)) →
      ∀ (o : Option α) (rest : Borsh.Bytes),
      Borsh.deserializeOption Borsh.listRd dT
          (Borsh.encodeOption encT o ++ rest) = .ok (o, rest)) ∧
    (∀ {α β : Type} (encOk : α → Borsh.Bytes)
      (dOk : Borsh.Bytes → Except Borsh.IoErr (α × Borsh.Bytes))
      (encErr : β → Borsh.Bytes)
      (dErr : Borsh.Bytes → Except Borsh.IoErr (β × Borsh.Bytes)),
      (∀ x rest, dOk (encOk x ++ rest) = .ok (x, rest)) →
      (∀ x rest, dErr (encErr x ++ rest) = .ok (x, rest)) →
      ∀ (r : α ⊕ β) (rest : Borsh.Bytes),
      Borsh.deserializeResult Borsh.listRd dOk dErr
          (Borsh.encodeResult encOk encErr r ++ rest) = .ok (r, rest)) ∧
    (∀ (s rest : Borsh.Bytes), s.length < 2 ^ 32 →
      Borsh.isValidUtf8 s = true →
      Borsh.deserializeString Borsh.listRd (Borsh.encodeString s ++ rest) =
        .ok (s, rest)) ∧
    (∀ {α : Type} (encT : α → Borsh.Bytes)
      (dT : Borsh.Bytes → Except Borsh.IoErr (α × Borsh.Bytes))
      (xs : List α),
      (∀ x ∈ xs, ∀ rest, dT (encT x ++ rest) = .ok (x, rest)) →
      xs.length < 2 ^ 32 → ∀ rest : Borsh.Bytes,
      Borsh.deserializeVec Borsh.listRd dT false
          (Borsh.encodeVec encT xs ++ rest) = .ok (xs, rest)) ∧
    (∀ (bs rest : Borsh.Bytes), bs.length < 2 ^ 32 →
      Borsh.deserializeBoxBytes Borsh.listRd
          (Borsh.encodeBoxBytes bs ++ rest) = .ok (bs, rest)) ∧
    (∀ {α : Type} (encT : α → Borsh.Bytes)
      (dT : Borsh.Bytes → Except Borsh.IoErr (α × Borsh.Bytes))
      (xs : List α),
      (∀ x ∈ xs, ∀ rest, dT (encT x ++ rest) = .ok (x, rest)) →
      ∀ rest : Borsh.Bytes,
      Borsh.deserializeArray dT xs.length
          (Borsh.encodeArray encT xs ++ rest) = .ok (xs, rest)) ∧
    (∀ {α β : Type} (enc1 : α → Borsh.Bytes)
      (d1 : Borsh.Bytes → Except Borsh.IoErr (α × Borsh.Bytes))
      (enc2 : β → Borsh.Bytes)
      (d2 : Borsh.Bytes → Except Borsh.IoErr (β × Borsh.Bytes)),
      (∀ x rest, d1 (enc1 x ++ rest) = .ok (x, rest)) →
      (∀ x rest, d2 (enc2 x ++ rest) = .ok (x, rest)) →
      ∀ (p : α × β) (rest : Borsh.Bytes),
      Borsh.deserializeTuple2 d1 d2
          (Borsh.encodeTuple2 enc1 enc2 p ++ rest) = .ok (p, rest)) ∧
    (∀ {A1 A2 A3 A4 A5 A6 A7 A8 A9 A10 A11 A12 A13 A14 A15 A16 A17 A18 A19 : Type}
      (e1 : A1 → Borsh.Bytes) (d1 : Borsh.Bytes → Except Borsh.IoErr (A1 × Borsh.Bytes))
      (e2 : A2 → Borsh.Bytes) (d2 : Borsh.Bytes → Except Borsh.IoErr (A2 × Borsh.Bytes))
      (e3 : A3 → Borsh.Bytes) (d3 : Borsh.Bytes → Except Borsh.IoErr (A3 × Borsh.Bytes))
      (e4 : A4 → Borsh.Bytes) (d4 : Borsh.Bytes → Except Borsh.IoErr (A4 × Borsh.Bytes))
      (e5 : A5 → Borsh.Bytes) (d5 : Borsh.Bytes → Except Borsh.IoErr (A5 × Borsh.Bytes))
      (e6 : A6 → Borsh.Bytes) (d6 : Borsh.Bytes → Except Borsh.IoErr (A6 × Borsh.Bytes))
      (e7 : A7 → Borsh.Bytes) (d7 : Borsh.Bytes → Except Borsh.IoErr (A7 × Borsh.Bytes))
      (e8 : A8 → Borsh.Bytes) (d8 : Borsh.Bytes → Except Borsh.IoErr (A8 × Borsh.Bytes))
      (e9 : A9 → Borsh.Bytes) (d9 : Borsh.Bytes → Except Borsh.IoErr (A9 × Borsh.Bytes))
      (e10 : A10 → Borsh.Bytes) (d10 : Borsh.Bytes → Except Borsh.IoErr (A10 × Borsh.Bytes))
      (e11 : A11 → Borsh.Bytes) (d11 : Borsh.Bytes → Except Borsh.IoErr (A11 × Borsh.Bytes))
      (e12 : A12 → Borsh.Bytes) (d12 : Borsh.Bytes → Except Borsh.IoErr (A12 × Borsh.Bytes))
      (e13 : A13 → Borsh.Bytes) (d13 : Borsh.Bytes → Except Borsh.IoErr (A13 × Borsh.Bytes))
      (e14 : A14 → Borsh.Bytes) (d14 : Borsh.Bytes → Except Borsh.IoErr (A14 × Borsh.Bytes))
      (e15 : A15 → Borsh.Bytes) (d15 : Borsh.Bytes → Except Borsh.IoErr (A15 × Borsh.Bytes))
      (e16 : A16 → Borsh.Bytes) (d16 : Borsh.Bytes → Except Borsh.IoErr (A16 × Borsh.Bytes))
      (e17 : A17 → Borsh.Bytes) (d17 : Borsh.Bytes → Except Borsh.IoErr (A17 × Borsh.Bytes))
      (e18 : A18 → Borsh.Bytes) (d18 : Borsh.Bytes → Except Borsh.IoErr (A18 × Borsh.Bytes))
      (e19 : A19 → Borsh.Bytes) (d19 : Borsh.Bytes → Except Borsh.IoErr (A19 × Borsh.Bytes)),
      (∀ x rest, d1 (e1 x ++ rest) = .ok (x, rest)) →
      (∀ x rest, d2 (e2 x ++ rest) = .ok (x, rest)) →
      (∀ x rest, d3 (e3 x ++ rest) = .ok (x, rest)) →
      (∀ x rest, d4 (e4 x ++ rest) = .ok (x, rest)) →
      (∀ x rest, d5 (e5 x ++ rest) = .ok (x, rest)) →
      (∀ x rest, d6 (e6 x ++ rest) = .ok (x, rest)) →
      (∀ x rest, d7 (e7 x ++ rest) = .ok (x, rest)) →
      (∀ x rest, d8 (e8 x ++ rest) = .ok (x, rest)) →
      (∀ x rest, d9 (e9 x ++ rest) = .ok (x, rest)) →
      (∀ x rest, d10 (e10 x ++ rest) = .ok (x, rest)) →
      (∀ x rest, d11 (e11 x ++ rest) = .ok (x, rest)) →
      (∀ x rest, d12 (e12 x ++ rest) = .ok (x, rest)) →
      (∀ x rest, d13 (e13 x ++ rest) = .ok (x, rest)) →
      (∀ x rest, d14 (e14 x ++ rest) = .ok (x, rest)) →
      (∀ x rest, d15 (e15 x ++ rest) = .ok (x, rest)) →
      (∀ x rest, d16 (e16 x ++ rest) = .ok (x, rest)) →
      (∀ x rest, d17 (e17 x ++ rest) = .ok (x, rest)) →
      (∀ x rest, d18 (e18 x ++ rest) = .ok (x, rest)) →
      (∀ x rest, d19 (e19 x ++ rest) = .ok (x, rest)) →
      ∀ (p : A1 × A2 × A3 × A4 × A5 × A6 × A7 × A8 × A9 × A10 × A11 × A12 × A13 × A14 × A15 × A16 × A17 × A18 × A19)
        (rest : Borsh.Bytes),
      Borsh.deserializeTuple19 d1 d2 d3 d4 d5 d6 d7 d8 d9 d10 d11 d12 d13 d14 d15 d16 d17 d18 d19
          (Borsh.encodeTuple19 e1 e2 e3 e4 e5 e6 e7 e8 e9 e10 e11 e12 e13 e14 e15 e16 e17 e18 e19 p ++ rest) = .ok (p, rest)) ∧
    (∀ {κ ν : Type} [DecidableEq κ] (encK : κ → Borsh.Bytes)
      (dK : Borsh.Bytes → Except Borsh.IoErr (κ × Borsh.Bytes))
      (encV : ν → Borsh.Bytes)
      (dV : Borsh.Bytes → Except Borsh.IoErr (ν × Borsh.Bytes)),
      (∀ k rest, dK (encK k ++ rest) = .ok (k, rest)) →
      (∀ v rest, dV (encV v ++ rest) = .ok (v, rest)) →
      ∀ (ps : List (κ × ν)) (rest : Borsh.Bytes), ps.length < 2 ^ 32 →
      List.Pairwise (fun p q => p.1 ≠ q.1) ps →
      Borsh.deserializeHashMap Borsh.listRd dK dV
          (Borsh.encodeU32 ps.length ++
            (Borsh.encPairs encK encV ps ++ rest)) = .ok (ps, rest)) ∧
    (∀ {ν : Type} (encK : Nat → Borsh.Bytes)
      (dK : Borsh.Bytes → Except Borsh.IoErr (Nat × Borsh.Bytes))
      (encV : ν → Borsh.Bytes)
      (dV : Borsh.Bytes → Except Borsh.IoErr (ν × Borsh.Bytes)),
      (∀ k rest, dK (encK k ++ rest) = .ok (k, rest)) →
      (∀ v rest, dV (encV v ++ rest) = .ok (v, rest)) →
      ∀ (ps : List (Nat × ν)) (rest : Borsh.Bytes), ps.length < 2 ^ 32 →
      List.Pairwise (fun p q => p.1 < q.1) ps →
      Borsh.deserializeBTreeMap Borsh.listRd dK dV
          (Borsh.encodeU32 ps.length ++
            (Borsh.encPairs encK encV ps ++ rest)) = .ok (ps, rest)) ∧
    (∀ {α : Type} [DecidableEq α] (encT : α → Borsh.Bytes)
      (dT : Borsh.Bytes → Except Borsh.IoErr (α × Borsh.Bytes))
      (xs : List α),
      (∀ x ∈ xs, ∀ rest, dT (encT x ++ rest) = .ok (x, rest)) →
      ∀ rest : Borsh.Bytes, xs.length < 2 ^ 32 → xs.Nodup →
      Borsh.deserializeHashSet Borsh.listRd dT false
          (Borsh.encodeVec encT xs ++ rest) = .ok (xs, rest)) ∧
    (∀ (encT : Nat → Borsh.Bytes)
      (dT : Borsh.Bytes → Except Borsh.IoErr (Nat × Borsh.Bytes))
      (xs : List Nat),
      (∀ x ∈ xs, ∀ rest, dT (encT x ++ rest) = .ok (x, rest)) →
      ∀ rest : Borsh.Bytes, xs.length < 2 ^ 32 →
      List.Pairwise (fun a b => a < b) xs →
      Borsh.deserializeBTreeSet Borsh.listRd dT false
          (Borsh.encodeVec encT xs ++ rest) = .ok (xs, rest)) ∧
    (∀ (a : Borsh.SockV4) (rest : Borsh.Bytes), a.ip.length = 4 →
      a.port < 2 ^ 16 →
      Borsh.deserializeSocketAddr Borsh.listRd
          (Borsh.encodeSocketAddr (.v4 a) ++ rest) = .ok (.v4 a, rest)) ∧
    (∀ (a : Borsh.SockV6) (rest : Borsh.Bytes), a.ip.length = 16 →
      a.port < 2 ^ 16 →
      Borsh.deserializeSocketAddr Borsh.listRd
          (Borsh.encodeSocketAddr (.v6 a) ++ rest) =
        .ok (.v6 ⟨a.ip, a.port, 0, 0⟩, rest)) ∧
    (∀ (a : Borsh.SockV6) (rest : Borsh.Bytes), a.ip.length = 16 →
      a.port < 2 ^ 16 → a.flowinfo = 0 → a.scope = 0 →
      Borsh.deserializeSocketAddr Borsh.listRd
          (Borsh.encodeSocketAddr (.v6 a) ++ rest) = .ok (.v6 a, rest)) ∧
    Borsh.try_from_slice Borsh.deserializeA (Borsh.encodeA Borsh.aTest) =
      .ok Borsh.aTest := by
  refine ⟨fun s => rfl, fun w n rest h => Borsh.deserializeInt_encode rest h,
    Borsh.deserializeBool_encode, Borsh.deserializeF32_encode,
    Borsh.deserializeF64_encode,
    fun encT dT hT => Borsh.deserializeOption_encode hT,
    fun encOk dOk encErr dErr hOk hErr =>
      Borsh.deserializeResult_encode hOk hErr,
    Borsh.deserializeString_encode,
    fun encT dT xs hT hlen rest => Borsh.deserializeVec_encode xs hT rest hlen,
    Borsh.deserializeBoxBytes_encode,
    fun encT dT xs hT rest => Borsh.deserializeArray_encode xs hT rest,
    fun enc1 d1 enc2 d2 h1 h2 => Borsh.deserializeTuple2_encode h1 h2,
    fun e1 d1 e2 d2 e3 d3 e4 d4 e5 d5 e6 d6 e7 d7 e8 d8 e9 d9 e10 d10 e11 d11 e12 d12 e13 d13 e14 d14 e15 d15 e16 d16 e17 d17 e18 d18 e19 d19
        h1 h2 h3 h4 h5 h6 h7 h8 h9 h10 h11 h12 h13 h14 h15 h16 h17 h18 h19 =>
      Borsh.deserializeTuple19_encode h1 h2 h3 h4 h5 h6 h7 h8 h9 h10 h11 h12 h13 h14 h15 h16 h17 h18 h19,
    fun encK dK encV dV hK hV ps rest hlen hpw =>
      Borsh.deserializeHashMap_encode hK hV ps rest hlen hpw,
    fun encK dK encV dV hK hV ps rest hlen hpw =>
      Borsh.deserializeBTreeMap_encode hK hV ps rest hlen hpw,
    fun encT dT xs hT rest hlen hnd =>
      Borsh.deserializeHashSet_encode xs hT rest hlen hnd,
    fun encT dT xs hT rest hlen hpw =>
      Borsh.deserializeBTreeSet_encode xs hT rest hlen hpw,
    Borsh.deserializeSocketAddr_encode_v4,
    Borsh.deserializeSocketAddr_encode_v6, ?_, rfl⟩
  intro a rest hip hport hf hs
  have h := Borsh.deserializeSocketAddr_encode_v6 a rest hip hport
  have ha : (⟨a.ip, a.port, 0, 0⟩ : Borsh.SockV6) = a := by
    cases a
    simp_all
  rwa [ha] at h

/-- Witness for C1: the `u64` value 1 round-trips, the string "foo"
round-trips, the string-vector conjunct round-trips the `x` field of
the test, a two-entry boolean hash map and a tagged IPv4 socket
address round-trip, and the final conjunct is the concrete
`test_generic_struct` round trip itself. -/
theorem Borsh.c1_witness :
    Borsh.deserializeInt Borsh.listRd 8 (Borsh.leBytes 8 1 ++ []) =
        .ok (1, []) ∧
    Borsh.deserializeString Borsh.listRd
        (Borsh.encodeString [102, 111, 111] ++ []) =
      .ok ([102, 111, 111], []) ∧
    Borsh.deserializeVec Borsh.listRd (Borsh.deserializeString Borsh.listRd)
        false (Borsh.encodeVec Borsh.encodeString
          [[102, 111, 111], [98, 97, 114]] ++ []) =
      .ok ([[102, 111, 111], [98, 97, 114]], []) ∧
    Borsh.deserializeHashMap Borsh.listRd
        (Borsh.deserializeBool Borsh.listRd)
        (Borsh.deserializeBool Borsh.listRd)
        (Borsh.encodeU32 2 ++
          (Borsh.encPairs Borsh.encodeBool Borsh.encodeBool
            [(false, true), (true, true)] ++ [])) =
      .ok ([(false, true), (true, true)], []) ∧
    Borsh.deserializeSocketAddr Borsh.listRd
        (Borsh.encodeSocketAddr (.v4 ⟨[127, 0, 0, 1], 80⟩) ++ []) =
      .ok (.v4 ⟨[127, 0, 0, 1], 80⟩, []) ∧
    Borsh.try_from_slice Borsh.deserializeA (Borsh.encodeA Borsh.aTest) =
      .ok Borsh.aTest := by
  obtain ⟨h1, h2, h3, h4, h5, h6, h7, h8, h9, h10, h11, h12, h13, h14, h15,
    h16, h17, h18, h19, h20, h21⟩ := Borsh.c1_roundtrip
  refine ⟨h2 8 1 [] (by norm_num),
    h8 [102, 111, 111] [] (by norm_num) (by decide), ?_, ?_, ?_, h21⟩
  · exact h9 Borsh.encodeString (Borsh.deserializeString Borsh.listRd)
      [[102, 111, 111], [98, 97, 114]]
      (by
        intro x hx rest
        simp only [List.mem_cons, List.not_mem_nil, or_false] at hx
        rcases hx with rfl | rfl
        · exact Borsh.deserializeString_encode _ rest (by norm_num) (by decide)
        · exact Borsh.deserializeString_encode _ rest (by norm_num) (by decide))
      (by norm_num) []
  · exact h14 Borsh.encodeBool (Borsh.deserializeBool Borsh.listRd)
      Borsh.encodeBool (Borsh.deserializeBool Borsh.listRd)
      Borsh.deserializeBool_encode Borsh.deserializeBool_encode
      [(false, true), (true, true)] [] (by norm_num) (by decide)
  · exact h18 ⟨[127, 0, 0, 1], 80⟩ [] (by decide) (by norm_num)
